import Mathlib

/-!
Verification development for the CV-Manager email ingestion and
classification pipeline.  The definitions below are a shallow embedding of
the TypeScript sources:

* backend/src/services/classifier.ts        (rule-based classifier)
* backend/src/services/ollamaService.ts     (AI extraction adapter, subject key)
* backend/src/services/applicationService.ts (application upsert, list filters)
* backend/src/services/followupService.ts   (follow-up scheduler)
* backend/src/utils/normalize.ts            (normalization utilities)
* the Gmail sync engine (runSync and helpers)

JavaScript strings are modelled as lists of characters; the string
operations used by the sources (trim, toLowerCase, includes, split, the
specific regular expressions they apply) are implemented character by
character.  Case conversion is modelled for ASCII, which covers every
string constant the sources compare against.  Timestamps are modelled as
integers counting milliseconds; adding n days is modelled as adding
n * 86400000 ms.  Database tables are modelled as lists of rows with a
monotone id counter.
-/

namespace CVManager

/-- ASCII lowercase conversion of one character, modelling the effect of
JavaScript toLowerCase on the ASCII range. -/
def lowerChar (c : Char) : Char :=
  if 65 ≤ c.toNat ∧ c.toNat ≤ 90 then Char.ofNat (c.toNat + 32) else c

/-- ASCII uppercase conversion of one character (JavaScript toUpperCase on
the ASCII range). -/
def upperChar (c : Char) : Char :=
  if 97 ≤ c.toNat ∧ c.toNat ≤ 122 then Char.ofNat (c.toNat - 32) else c

/-- Whitespace as matched by the JavaScript regex class backslash-s (ASCII
part: space, tab, line feed, vertical tab, form feed, carriage return). -/
def isJsWs (c : Char) : Bool :=
  c.toNat = 32 ∨ c.toNat = 9 ∨ c.toNat = 10 ∨ c.toNat = 11 ∨ c.toNat = 12 ∨ c.toNat = 13

/-- Lowercase ASCII letter or digit, the character class a-z0-9. -/
def isLowerAlnum (c : Char) : Bool :=
  (97 ≤ c.toNat ∧ c.toNat ≤ 122) ∨ (48 ≤ c.toNat ∧ c.toNat ≤ 57)

/-- Any ASCII letter or digit (the case-insensitive class A-Za-z0-9). -/
def isAlnum (c : Char) : Bool :=
  isLowerAlnum c ∨ (65 ≤ c.toNat ∧ c.toNat ≤ 90)

def toLowerList (l : List Char) : List Char := l.map lowerChar

/-- Does the first list start with the second one? -/
def listStartsWith : List Char → List Char → Bool
  | _, [] => true
  | [], _ :: _ => false
  | a :: as, b :: bs => a = b ∧ listStartsWith as bs

/-- Substring containment, modelling JavaScript String.prototype.includes. -/
def hasSubstr : List Char → List Char → Bool
  | [], needle => needle.isEmpty
  | a :: as, needle => listStartsWith (a :: as) needle ∨ hasSubstr as needle

/-- Drop a trailing run of characters satisfying p. -/
def dropTrailWhile (p : Char → Bool) (l : List Char) : List Char :=
  (l.reverse.dropWhile p).reverse

/-- JavaScript String.prototype.trim on the modelled whitespace class. -/
def trimList (l : List Char) : List Char :=
  dropTrailWhile isJsWs (l.dropWhile isJsWs)

/-- Replace every maximal whitespace run by a single space: the global
regex replacement of one-or-more whitespace by one space.  The flag
records whether the previous character was part of a whitespace run. -/
def collapseWsGo (prevWs : Bool) : List Char → List Char
  | [] => []
  | c :: rest =>
    if isJsWs c then
      (if prevWs then [] else [Char.ofNat 32]) ++ collapseWsGo true rest
    else c :: collapseWsGo false rest

def collapseWs (l : List Char) : List Char := collapseWsGo false l

/-- Split a character list on a separator character (String.prototype.split
with a one-character separator). -/
def splitOnCharGo (sep : Char) (acc : List Char) : List Char → List (List Char)
  | [] => [acc.reverse]
  | c :: rest =>
    if c = sep then acc.reverse :: splitOnCharGo sep [] rest
    else splitOnCharGo sep (c :: acc) rest

def splitOnChar (sep : Char) (l : List Char) : List (List Char) :=
  splitOnCharGo sep [] l

/-! ## Rule-based classifier (classifier.ts) -/

/-- The pipeline status enum of the Prisma schema. -/
inductive ApplicationStatus
  | submitted
  | received
  | rejected
  | interview
  | assessment
  | offer
  | withdrawn
deriving DecidableEq

/-- The classifier predicts either a pipeline status or the out-of-band
value "unclassified". -/
inductive PredictedStatus
  | known (s : ApplicationStatus)
  | unclassified
deriving DecidableEq

structure RuleDefinition where
  status : ApplicationStatus
  label : String
  keywords : List String

structure ClassificationResult where
  matchedRule : String
  confidence : ℚ
  predictedStatus : PredictedStatus
  isConfirmation : Bool
  needsReview : Bool
deriving DecidableEq

/-- The rejected rule of the RULES array in classifier.ts. -/
def rejectedRule : RuleDefinition :=
  { status := .rejected
    label := "rejected"
    keywords :=
      ["unfortunately", "not moving forward", "other candidates",
       "regret to inform", "we regret", "not selected", "declined",
       "rejected", "position has been filled"] }

/-- The interview rule of RULES. -/
def interviewRule : RuleDefinition :=
  { status := .interview
    label := "interview"
    keywords := ["interview", "schedule", "availability", "meet with"] }

/-- The assessment rule of RULES. -/
def assessmentRule : RuleDefinition :=
  { status := .assessment
    label := "assessment"
    keywords := ["assignment", "test", "coding challenge", "assessment"] }

/-- The offer rule of RULES. -/
def offerRule : RuleDefinition :=
  { status := .offer
    label := "offer"
    keywords :=
      ["offer", "compensation", "welcome aboard", "joining", "approved",
       "accepted", "selected", "moving forward with your application",
       "pleased to inform"] }

/-- The received rule of RULES. -/
def receivedRule : RuleDefinition :=
  { status := .received
    label := "received"
    keywords :=
      ["application received", "thank you for applying",
       "thanks for applying", "application submitted", "we received"] }

/-- The RULES array of classifier.ts, in its source order. -/
def RULES : List RuleDefinition :=
  [rejectedRule, interviewRule, assessmentRule, offerRule, receivedRule]

/-- containsKeyword of classifier.ts: substring containment. -/
def containsKeyword (text keyword : List Char) : Bool :=
  hasSubstr text keyword

/-- The lowercased combined subject-newline-body text scanned by the
classifier. -/
def combinedText (subject bodyText : String) : List Char :=
  toLowerList (subject.data ++ Char.ofNat 10 :: bodyText.data)

/-- Does any keyword of the rule occur in the combined text? -/
def ruleMatches (combined : List Char) (rule : RuleDefinition) : Bool :=
  rule.keywords.any (fun k => containsKeyword combined k.data)

/-- The per-rule loop body of classifyEmailContent, iterating over the
remaining rules in order. -/
def classifyGo (combined : List Char) : List RuleDefinition → ClassificationResult
  | [] =>
    { matchedRule := "none"
      confidence := 0
      predictedStatus := .unclassified
      isConfirmation := false
      needsReview := true }
  | rule :: rest =>
    match rule.keywords.find? (fun k => containsKeyword combined k.data) with
    | some m =>
      let isExactPhrase := hasSubstr combined m.data
      let confidence : ℚ := if isExactPhrase then 9/10 else 7/10
      { matchedRule := rule.label ++ ":" ++ m
        confidence := confidence
        predictedStatus := .known rule.status
        isConfirmation := decide (rule.status = ApplicationStatus.received)
        needsReview := decide (confidence < 3/4) }
    | none => classifyGo combined rest

/-- classifyEmailContent of classifier.ts. -/
def classifyEmailContent (subject bodyText : String) : ClassificationResult :=
  classifyGo (combinedText subject bodyText) RULES

/-! ## Subject grouping key (ollamaService.ts, normalizeSubjectForGroup) -/

/-- Strip one anchored prefix such as re:, fw:, fwd: followed by optional
whitespace (the regexes of CONTROL_PREFIXES, each applied once with
String.prototype.replace on the already-lowercased subject). -/
def stripAnchoredTag (pre : List Char) (l : List Char) : List Char :=
  if listStartsWith l pre then (l.drop pre.length).dropWhile isJsWs else l

/-- Strip a leading "we got it" with an optional colon or comma and
trailing whitespace (the we-got-it regex of normalizeSubjectForGroup). -/
def stripWeGotIt (l : List Char) : List Char :=
  if listStartsWith l ("we got it").data then
    let r := l.drop 9
    let r2 :=
      match r with
      | c :: rest => if c = Char.ofNat 58 ∨ c = Char.ofNat 44 then rest else r
      | [] => r
    r2.dropWhile isJsWs
  else l

/-- After the literal phrase "thanks for applying", the regex optionally
consumes one-or-more whitespace followed by the word to or for (greedy,
with "to" tried first, exactly as the alternation is written). -/
def dropToFor (l : List Char) : List Char :=
  match l with
  | [] => []
  | c :: _ =>
    if isJsWs c then
      let rest := l.dropWhile isJsWs
      if listStartsWith rest ("to").data then rest.drop 2
      else if listStartsWith rest ("for").data then rest.drop 3
      else l
    else l

/-- Remove the first occurrence of "thanks for applying" together with its
optional "to" or "for" tail (the non-global replace in
normalizeSubjectForGroup). -/
def removeThanksPhrase : List Char → List Char
  | [] => []
  | c :: rest =>
    if listStartsWith (c :: rest) ("thanks for applying").data then
      dropToFor ((c :: rest).drop ("thanks for applying").data.length)
    else c :: removeThanksPhrase rest

/-- The normalization core of normalizeSubjectForGroup: everything before
the emptiness test and the split-take-join. -/
def subjectGroupCore (subject : String) : List Char :=
  let n0 := toLowerList (trimList subject.data)
  let n1 := stripAnchoredTag ("re:").data n0
  let n2 := stripAnchoredTag ("fw:").data n1
  let n3 := stripAnchoredTag ("fwd:").data n2
  let n4 := stripWeGotIt n3
  let n5 := removeThanksPhrase n4
  let n6 := n5.map (fun c => if isLowerAlnum c ∨ isJsWs c then c else Char.ofNat 32)
  trimList (collapseWs n6)

/-- normalizeSubjectForGroup of ollamaService.ts. -/
def normalizeSubjectForGroup (subject : String) : String :=
  let core := subjectGroupCore subject
  if core.isEmpty then "thanks-for-applying"
  else String.mk (List.intercalate [Char.ofNat 45] ((splitOnChar (Char.ofNat 32) core).take 12))

/-! ## Normalization utilities (utils/normalize.ts) -/

/-- The ROLE_SYNONYMS dictionary of normalize.ts, as key-value pairs. -/
def ROLE_SYNONYMS : List (String × String) :=
  [("software engineer", "software engineer"),
   ("software developer", "software engineer"),
   ("full stack developer", "full stack engineer"),
   ("fullstack developer", "full stack engineer"),
   ("frontend developer", "frontend engineer"),
   ("backend developer", "backend engineer")]

/-- normalizeRole of normalize.ts: lowercase, replace every character
outside a-z0-9 and whitespace by a space, collapse whitespace, trim;
empty becomes the sentinel "unknown-role"; otherwise the synonym table is
consulted. -/
def normalizeRole (input : String) : String :=
  let sanitized :=
    trimList (collapseWs ((toLowerList input.data).map
      (fun c => if isLowerAlnum c ∨ isJsWs c then c else Char.ofNat 32)))
  if sanitized.isEmpty then "unknown-role"
  else
    let s := String.mk sanitized
    match (ROLE_SYNONYMS.find? (fun kv => kv.1 = s)).map Prod.snd with
    | some v => v
    | none => s

/-- One character of the local-part class A-Z0-9._%+- of the email regex
in extractEmailAddress (case-insensitive). -/
def isEmailLocalChar (c : Char) : Bool :=
  isAlnum c ∨ c = Char.ofNat 46 ∨ c = Char.ofNat 95 ∨ c = Char.ofNat 37 ∨
    c = Char.ofNat 43 ∨ c = Char.ofNat 45

/-- One character of the domain class A-Z0-9.- of the email regex. -/
def isEmailDomainChar (c : Char) : Bool :=
  isAlnum c ∨ c = Char.ofNat 46 ∨ c = Char.ofNat 45

/-- ASCII letter (the class A-Z with the i flag). -/
def isAsciiLetter (c : Char) : Bool :=
  (65 ≤ c.toNat ∧ c.toNat ≤ 90) ∨ (97 ≤ c.toNat ∧ c.toNat ≤ 122)

/-- Backtracking tail of the email regex after the at sign: the greedy
domain run must end in a dot followed by at least two letters; the
rightmost viable dot wins, and the letter run after it is taken greedily.
Returns the matched domain characters. -/
def emailDomainMatch (run : List Char) : Option (List Char) :=
  let rec go : List Char → Option (List Char)
    | [] => none
    | c :: rest =>
      match go rest with
      | some tail => some (c :: tail)
      | none =>
        if c = Char.ofNat 46 then
          let letters := rest.takeWhile isAsciiLetter
          if 2 ≤ letters.length then some (c :: letters) else none
        else none
  go run

/-- Try to match the email regex at the start of the list; on success
return the matched characters. -/
def emailMatchAt (l : List Char) : Option (List Char) :=
  let localRun := l.takeWhile isEmailLocalChar
  if localRun.isEmpty then none
  else
    match l.drop localRun.length with
    | c :: rest =>
      if c = Char.ofNat 64 then
        let domainRun := rest.takeWhile isEmailDomainChar
        match emailDomainMatch domainRun with
        | some d => some (localRun ++ c :: d)
        | none => none
      else none
    | [] => none

/-- Leftmost match of the email regex (String.prototype.match without the
g flag): try every start position from the left. -/
def emailFirstMatch : List Char → Option (List Char)
  | [] => none
  | c :: rest =>
    match emailMatchAt (c :: rest) with
    | some m => some m
    | none => emailFirstMatch rest

/-- extractEmailAddress of normalize.ts: the first regex match lowercased,
else the whole input trimmed and lowercased. -/
def extractEmailAddress (raw : String) : String :=
  match emailFirstMatch raw.data with
  | some m => String.mk (toLowerList m)
  | none => String.mk (toLowerList (trimList raw.data))

/-- extractDomainFromEmail of normalize.ts: the part after the first at
sign of the normalized address, else the empty string. -/
def extractDomainFromEmail (email : String) : String :=
  let normalized := extractEmailAddress email
  match splitOnChar (Char.ofNat 64) normalized.data with
  | _ :: domain :: _ => String.mk domain
  | _ => ""

/-- Capitalize the first character of one dash-separated part
(charAt(0).toUpperCase() + slice(1)). -/
def capitalizePart (part : List Char) : List Char :=
  match part with
  | [] => []
  | c :: rest => upperChar c :: rest

/-- inferCompanyNameFromDomain of normalize.ts. -/
def inferCompanyNameFromDomain (domain : String) : String :=
  if domain = "" then "Unknown Company"
  else
    let firstLabel :=
      match splitOnChar (Char.ofNat 46) domain.data with
      | l :: _ => l
      | [] => domain.data
    String.mk (List.intercalate [Char.ofNat 32]
      ((splitOnChar (Char.ofNat 45) firstLabel).map capitalizePart))

/-! ## Classifier lemmas -/

theorem classifyGo_cons_of_no_match {c : List Char} {rule : RuleDefinition}
    (rest : List RuleDefinition) (h : ruleMatches c rule = false) :
    classifyGo c (rule :: rest) = classifyGo c rest := by
  have hfind : rule.keywords.find? (fun k => containsKeyword c k.data) = none := by
    rw [List.find?_eq_none]
    intro x hx
    have := List.any_eq_false.mp h x hx
    simpa using this
  simp [classifyGo, hfind]

theorem classifyGo_cons_of_match {c : List Char} {rule : RuleDefinition}
    (rest : List RuleDefinition) (h : ruleMatches c rule = true) :
    ∃ m, classifyGo c (rule :: rest) =
      { matchedRule := rule.label ++ ":" ++ m
        confidence := 9/10
        predictedStatus := .known rule.status
        isConfirmation := decide (rule.status = ApplicationStatus.received)
        needsReview := false } := by
  have hsome : (rule.keywords.find? (fun k => containsKeyword c k.data)).isSome := by
    rw [List.find?_isSome]
    obtain ⟨x, hx, hpx⟩ := List.any_eq_true.mp h
    exact ⟨x, hx, hpx⟩
  obtain ⟨m, hm⟩ := Option.isSome_iff_exists.mp hsome
  have hpm : containsKeyword c m.data = true := by
    have h2 := List.find?_some hm
    simpa using h2
  refine ⟨m, ?_⟩
  have hd : decide ((9 : ℚ)/10 < 3/4) = false := decide_eq_false (by norm_num)
  simp only [classifyGo, hm]
  simp only [containsKeyword] at hpm
  simp [hpm, hd]

theorem classifyGo_nil_eq (c : List Char) :
    classifyGo c [] =
      { matchedRule := "none", confidence := 0,
        predictedStatus := .unclassified, isConfirmation := false,
        needsReview := true } := rfl

/-- C2 counterexample: a text containing both an offer keyword and an
interview keyword is classified as interview, not offer, because the
interview rule precedes the offer rule in RULES. -/
theorem classifier_priority_counterexample :
    ruleMatches (combinedText "" "interview offer") offerRule = true ∧
    ruleMatches (combinedText "" "interview offer") interviewRule = true ∧
    (classifyEmailContent "" "interview offer").predictedStatus =
      PredictedStatus.known ApplicationStatus.interview := by
  refine ⟨by decide, by decide, by decide⟩

/-- C2 (amended): classifyEmailContent scans the status rules in the fixed
source order rejection, interview, assessment, offer, received, and
returns the outcome of the first rule any of whose keywords occurs in the
lowercased combined subject and body, regardless of which keyword list has
more hits. -/
theorem classifier_priority_amended (subject bodyText : String) :
    (ruleMatches (combinedText subject bodyText) rejectedRule = true →
      (classifyEmailContent subject bodyText).predictedStatus =
        PredictedStatus.known ApplicationStatus.rejected) ∧
    (ruleMatches (combinedText subject bodyText) rejectedRule = false →
      ruleMatches (combinedText subject bodyText) interviewRule = true →
      (classifyEmailContent subject bodyText).predictedStatus =
        PredictedStatus.known ApplicationStatus.interview) ∧
    (ruleMatches (combinedText subject bodyText) rejectedRule = false →
      ruleMatches (combinedText subject bodyText) interviewRule = false →
      ruleMatches (combinedText subject bodyText) assessmentRule = true →
      (classifyEmailContent subject bodyText).predictedStatus =
        PredictedStatus.known ApplicationStatus.assessment) ∧
    (ruleMatches (combinedText subject bodyText) rejectedRule = false →
      ruleMatches (combinedText subject bodyText) interviewRule = false →
      ruleMatches (combinedText subject bodyText) assessmentRule = false →
      ruleMatches (combinedText subject bodyText) offerRule = true →
      (classifyEmailContent subject bodyText).predictedStatus =
        PredictedStatus.known ApplicationStatus.offer) ∧
    (ruleMatches (combinedText subject bodyText) rejectedRule = false →
      ruleMatches (combinedText subject bodyText) interviewRule = false →
      ruleMatches (combinedText subject bodyText) assessmentRule = false →
      ruleMatches (combinedText subject bodyText) offerRule = false →
      ruleMatches (combinedText subject bodyText) receivedRule = true →
      (classifyEmailContent subject bodyText).predictedStatus =
        PredictedStatus.known ApplicationStatus.received) ∧
    (ruleMatches (combinedText subject bodyText) rejectedRule = false →
      ruleMatches (combinedText subject bodyText) interviewRule = false →
      ruleMatches (combinedText subject bodyText) assessmentRule = false →
      ruleMatches (combinedText subject bodyText) offerRule = false →
      ruleMatches (combinedText subject bodyText) receivedRule = false →
      (classifyEmailContent subject bodyText).predictedStatus =
        PredictedStatus.unclassified) := by
  have e0 : classifyEmailContent subject bodyText =
      classifyGo (combinedText subject bodyText)
        (rejectedRule :: interviewRule :: assessmentRule :: offerRule ::
          receivedRule :: []) := rfl
  refine ⟨?_, ?_, ?_, ?_, ?_, ?_⟩
  · intro h1
    obtain ⟨m, hm⟩ := classifyGo_cons_of_match (c := combinedText subject bodyText)
      [interviewRule, assessmentRule, offerRule, receivedRule] h1
    rw [e0, hm]
    rfl
  · intro h1 h2
    obtain ⟨m, hm⟩ := classifyGo_cons_of_match (c := combinedText subject bodyText)
      [assessmentRule, offerRule, receivedRule] h2
    rw [e0, classifyGo_cons_of_no_match _ h1, hm]
    rfl
  · intro h1 h2 h3
    obtain ⟨m, hm⟩ := classifyGo_cons_of_match (c := combinedText subject bodyText)
      [offerRule, receivedRule] h3
    rw [e0, classifyGo_cons_of_no_match _ h1, classifyGo_cons_of_no_match _ h2, hm]
    rfl
  · intro h1 h2 h3 h4
    obtain ⟨m, hm⟩ := classifyGo_cons_of_match (c := combinedText subject bodyText)
      [receivedRule] h4
    rw [e0, classifyGo_cons_of_no_match _ h1, classifyGo_cons_of_no_match _ h2,
      classifyGo_cons_of_no_match _ h3, hm]
    rfl
  · intro h1 h2 h3 h4 h5
    obtain ⟨m, hm⟩ := classifyGo_cons_of_match (c := combinedText subject bodyText)
      ([] : List RuleDefinition) h5
    rw [e0, classifyGo_cons_of_no_match _ h1, classifyGo_cons_of_no_match _ h2,
      classifyGo_cons_of_no_match _ h3, classifyGo_cons_of_no_match _ h4, hm]
    rfl
  · intro h1 h2 h3 h4 h5
    rw [e0, classifyGo_cons_of_no_match _ h1, classifyGo_cons_of_no_match _ h2,
      classifyGo_cons_of_no_match _ h3, classifyGo_cons_of_no_match _ h4,
      classifyGo_cons_of_no_match _ h5, classifyGo_nil_eq]

/-- Witness for the amended C2 theorem at a concrete input that contains
both an interview keyword and an offer keyword. -/
theorem classifier_priority_amended_witness :
    ruleMatches (combinedText "" "interview offer") rejectedRule = false ∧
    ruleMatches (combinedText "" "interview offer") interviewRule = true ∧
    (classifyEmailContent "" "interview offer").predictedStatus =
      PredictedStatus.known ApplicationStatus.interview :=
  ⟨by decide, by decide,
    (classifier_priority_amended "" "interview offer").2.1 (by decide) (by decide)⟩

/-- C7: whenever any rule keyword occurs in the combined text the
classifier returns confidence exactly 9/10 (the 7/10 branch is
unreachable) and needsReview false; with no match it returns
unclassified, confidence 0 and needsReview true; and isConfirmation holds
exactly when the first matching rule is the received rule. -/
theorem classifier_confidence_and_flags (subject bodyText : String) :
    (RULES.any (ruleMatches (combinedText subject bodyText)) = true →
      (classifyEmailContent subject bodyText).confidence = 9/10 ∧
      (classifyEmailContent subject bodyText).needsReview = false) ∧
    (RULES.any (ruleMatches (combinedText subject bodyText)) = false →
      (classifyEmailContent subject bodyText).predictedStatus =
        PredictedStatus.unclassified ∧
      (classifyEmailContent subject bodyText).confidence = 0 ∧
      (classifyEmailContent subject bodyText).needsReview = true) ∧
    ((classifyEmailContent subject bodyText).isConfirmation =
      (!(ruleMatches (combinedText subject bodyText) rejectedRule) &&
       !(ruleMatches (combinedText subject bodyText) interviewRule) &&
       !(ruleMatches (combinedText subject bodyText) assessmentRule) &&
       !(ruleMatches (combinedText subject bodyText) offerRule) &&
       ruleMatches (combinedText subject bodyText) receivedRule)) := by
  have e0 : classifyEmailContent subject bodyText =
      classifyGo (combinedText subject bodyText)
        (rejectedRule :: interviewRule :: assessmentRule :: offerRule ::
          receivedRule :: []) := rfl
  cases h1 : ruleMatches (combinedText subject bodyText) rejectedRule with
  | true =>
    obtain ⟨m, hm⟩ := classifyGo_cons_of_match (c := combinedText subject bodyText)
      [interviewRule, assessmentRule, offerRule, receivedRule] h1
    refine ⟨fun _ => ?_, fun hany => ?_, ?_⟩
    · rw [e0, hm]; exact ⟨rfl, rfl⟩
    · have hx := List.any_eq_false.mp hany rejectedRule (by simp [RULES])
      simp [h1] at hx
    · rw [e0, hm]; simp [h1]; decide
  | false =>
  cases h2 : ruleMatches (combinedText subject bodyText) interviewRule with
  | true =>
    obtain ⟨m, hm⟩ := classifyGo_cons_of_match (c := combinedText subject bodyText)
      [assessmentRule, offerRule, receivedRule] h2
    refine ⟨fun _ => ?_, fun hany => ?_, ?_⟩
    · rw [e0, classifyGo_cons_of_no_match _ h1, hm]; exact ⟨rfl, rfl⟩
    · have hx := List.any_eq_false.mp hany interviewRule (by simp [RULES])
      simp [h2] at hx
    · rw [e0, classifyGo_cons_of_no_match _ h1, hm]; simp [h1, h2]; decide
  | false =>
  cases h3 : ruleMatches (combinedText subject bodyText) assessmentRule with
  | true =>
    obtain ⟨m, hm⟩ := classifyGo_cons_of_match (c := combinedText subject bodyText)
      [offerRule, receivedRule] h3
    refine ⟨fun _ => ?_, fun hany => ?_, ?_⟩
    · rw [e0, classifyGo_cons_of_no_match _ h1, classifyGo_cons_of_no_match _ h2, hm]
      exact ⟨rfl, rfl⟩
    · have hx := List.any_eq_false.mp hany assessmentRule (by simp [RULES])
      simp [h3] at hx
    · rw [e0, classifyGo_cons_of_no_match _ h1, classifyGo_cons_of_no_match _ h2, hm]
      simp [h1, h2, h3]; decide
  | false =>
  cases h4 : ruleMatches (combinedText subject bodyText) offerRule with
  | true =>
    obtain ⟨m, hm⟩ := classifyGo_cons_of_match (c := combinedText subject bodyText)
      [receivedRule] h4
    refine ⟨fun _ => ?_, fun hany => ?_, ?_⟩
    · rw [e0, classifyGo_cons_of_no_match _ h1, classifyGo_cons_of_no_match _ h2,
        classifyGo_cons_of_no_match _ h3, hm]
      exact ⟨rfl, rfl⟩
    · have hx := List.any_eq_false.mp hany offerRule (by simp [RULES])
      simp [h4] at hx
    · rw [e0, classifyGo_cons_of_no_match _ h1, classifyGo_cons_of_no_match _ h2,
        classifyGo_cons_of_no_match _ h3, hm]
      simp [h1, h2, h3, h4]; decide
  | false =>
  cases h5 : ruleMatches (combinedText subject bodyText) receivedRule with
  | true =>
    obtain ⟨m, hm⟩ := classifyGo_cons_of_match (c := combinedText subject bodyText)
      ([] : List RuleDefinition) h5
    refine ⟨fun _ => ?_, fun hany => ?_, ?_⟩
    · rw [e0, classifyGo_cons_of_no_match _ h1, classifyGo_cons_of_no_match _ h2,
        classifyGo_cons_of_no_match _ h3, classifyGo_cons_of_no_match _ h4, hm]
      exact ⟨rfl, rfl⟩
    · have hx := List.any_eq_false.mp hany receivedRule (by simp [RULES])
      simp [h5] at hx
    · rw [e0, classifyGo_cons_of_no_match _ h1, classifyGo_cons_of_no_match _ h2,
        classifyGo_cons_of_no_match _ h3, classifyGo_cons_of_no_match _ h4, hm]
      simp [h1, h2, h3, h4, h5]; decide
  | false =>
    have echain : classifyEmailContent subject bodyText =
        { matchedRule := "none", confidence := 0,
          predictedStatus := .unclassified, isConfirmation := false,
          needsReview := true } := by
      rw [e0, classifyGo_cons_of_no_match _ h1, classifyGo_cons_of_no_match _ h2,
        classifyGo_cons_of_no_match _ h3, classifyGo_cons_of_no_match _ h4,
        classifyGo_cons_of_no_match _ h5, classifyGo_nil_eq]
    refine ⟨fun hany => ?_, fun _ => ?_, ?_⟩
    · exfalso
      obtain ⟨x, hx, hpx⟩ := List.any_eq_true.mp hany
      simp only [RULES, List.mem_cons, List.not_mem_nil, or_false] at hx
      rcases hx with rfl | rfl | rfl | rfl | rfl
      · rw [h1] at hpx; exact Bool.false_ne_true hpx
      · rw [h2] at hpx; exact Bool.false_ne_true hpx
      · rw [h3] at hpx; exact Bool.false_ne_true hpx
      · rw [h4] at hpx; exact Bool.false_ne_true hpx
      · rw [h5] at hpx; exact Bool.false_ne_true hpx
    · rw [echain]; exact ⟨rfl, rfl, rfl⟩
    · rw [echain]; simp [h5]

/-- Witness for C7 at a concrete received-rule match. -/
theorem classifier_confidence_and_flags_witness :
    RULES.any (ruleMatches (combinedText "Thanks for applying" "")) = true ∧
    (classifyEmailContent "Thanks for applying" "").confidence = 9/10 ∧
    (classifyEmailContent "Thanks for applying" "").needsReview = false :=
  ⟨by decide,
    ((classifier_confidence_and_flags "Thanks for applying" "").1 (by decide)).1,
    ((classifier_confidence_and_flags "Thanks for applying" "").1 (by decide)).2⟩

/-- C6: the three subject variants normalize to the same grouping key, and
any subject whose normalization core is empty maps to the literal
fallback key. -/
theorem subject_normalization_equivalence :
    normalizeSubjectForGroup "Thanks for applying to Acme - Software Engineer" =
      "acme-software-engineer" ∧
    normalizeSubjectForGroup "RE: Thanks for applying for Acme, Software Engineer!" =
      "acme-software-engineer" ∧
    normalizeSubjectForGroup "Fwd: thanks for applying to acme software engineer" =
      "acme-software-engineer" ∧
    ∀ subject : String, subjectGroupCore subject = [] →
      normalizeSubjectForGroup subject = "thanks-for-applying" := by
  refine ⟨by decide, by decide, by decide, ?_⟩
  intro subject h
  simp [normalizeSubjectForGroup, h]

/-- Witness for the fallback part of C6 at a concrete subject whose
normalization core is empty. -/
theorem subject_normalization_equivalence_witness :
    subjectGroupCore "RE: Thanks for applying!" = [] ∧
    normalizeSubjectForGroup "RE: Thanks for applying!" = "thanks-for-applying" :=
  ⟨by decide,
    subject_normalization_equivalence.2.2.2 "RE: Thanks for applying!" (by decide)⟩

/-! ## Application store (applicationService.ts) -/

def toLowerStr (s : String) : String := String.mk (toLowerList s.data)

/-- The Application row of the Prisma schema, with the fields touched by
the ingestion path.  Row ids are modelled as naturals drawn from a
monotone counter; timestamps as integer milliseconds. -/
structure Application where
  id : Nat
  companyName : String
  companyDomain : String
  roleTitle : String
  normalizedRoleTitle : String
  groupSenderDomain : String
  groupSubjectKey : String
  status : ApplicationStatus
  sourceEmailMessageId : Option Nat
  manualStatusLocked : Bool
  firstSeenAt : Int
  lastActivityAt : Int
deriving DecidableEq

/-- The append-only ApplicationEvent row.  detailsJson carries the
diagnostic JSON blob, whose contents are not modelled. -/
structure ApplicationEvent where
  applicationId : Nat
  eventType : String
  eventAt : Int
  emailMessageId : Option Nat
  detailsJson : String
deriving DecidableEq

/-- The Application and ApplicationEvent tables with the id counter. -/
structure AppDb where
  apps : List Application
  events : List ApplicationEvent
  nextId : Nat
deriving DecidableEq

/-- The unique-index predicate on (groupSenderDomain, groupSubjectKey). -/
def appKeyIs (a : Application) (gsd gsk : String) : Bool :=
  a.groupSenderDomain = gsd ∧ a.groupSubjectKey = gsk

/-- findUnique on the composite unique index, modelled as the first (and
under the uniqueness invariant, only) matching row. -/
def findApp (l : List Application) (gsd gsk : String) : Option Application :=
  l.find? (fun a => appKeyIs a gsd gsk)

/-- update-where-id of the persistence layer: replace the row carrying the
given id by the new row value. -/
def replaceById {α : Type} (getId : α → Nat) (l : List α) (tid : Nat) (v : α) : List α :=
  l.map (fun a => if getId a = tid then v else a)

/-- The payload of createOrUpdateApplicationFromEmail.  Email-row ids are
naturals in this model. -/
structure IngestPayload where
  companyDomain : String
  roleTitle : String
  groupSenderDomain : String
  groupSubjectKey : String
  sourceEmailMessageId : Nat
  status : ApplicationStatus
  eventType : String
  eventDetails : String
  companyName : String
  eventAt : Int
deriving DecidableEq

/-- The update data object of the found branch of
createOrUpdateApplicationFromEmail: advance roleTitle, companyName,
companyDomain and normalizedRoleTitle only past their placeholders,
freeze status when manualStatusLocked, keep the first
sourceEmailMessageId, and always bump lastActivityAt. -/
def applyEmailUpdate (p : IngestPayload) (existing : Application) : Application :=
  { existing with
    roleTitle :=
      if p.roleTitle ≠ "unknown-role" then p.roleTitle else existing.roleTitle
    companyName :=
      if p.companyName ≠ "Unknown Company" then p.companyName
      else existing.companyName
    companyDomain :=
      if toLowerStr p.companyDomain ≠ "" then toLowerStr p.companyDomain
      else existing.companyDomain
    normalizedRoleTitle :=
      if p.roleTitle ≠ "unknown-role" then normalizeRole p.roleTitle
      else existing.normalizedRoleTitle
    status := if existing.manualStatusLocked then existing.status else p.status
    sourceEmailMessageId :=
      match existing.sourceEmailMessageId with
      | some x => some x
      | none => some p.sourceEmailMessageId
    lastActivityAt := p.eventAt }

/-- The create data object of the not-found branch: every field seeded
from the payload, firstSeenAt = lastActivityAt = the message timestamp,
manualStatusLocked at its schema default false. -/
def createdApplication (newId : Nat) (p : IngestPayload) : Application :=
  { id := newId
    companyName := p.companyName
    companyDomain := toLowerStr p.companyDomain
    roleTitle := p.roleTitle
    normalizedRoleTitle := normalizeRole p.roleTitle
    groupSenderDomain := toLowerStr p.groupSenderDomain
    groupSubjectKey := toLowerStr p.groupSubjectKey
    status := p.status
    sourceEmailMessageId := some p.sourceEmailMessageId
    manualStatusLocked := false
    firstSeenAt := p.eventAt
    lastActivityAt := p.eventAt }

/-- The ApplicationEvent appended after the upsert. -/
def ingestEvent (appId : Nat) (p : IngestPayload) : ApplicationEvent :=
  { applicationId := appId
    eventType := p.eventType
    eventAt := p.eventAt
    emailMessageId := some p.sourceEmailMessageId
    detailsJson := p.eventDetails }

/-- createOrUpdateApplicationFromEmail of applicationService.ts: look up
the Application by the lowercased group key pair; update it in place when
found, otherwise create it; then append one ApplicationEvent. -/
def createOrUpdateApplicationFromEmail (db : AppDb) (p : IngestPayload) :
    AppDb × Application :=
  match findApp db.apps (toLowerStr p.groupSenderDomain) (toLowerStr p.groupSubjectKey) with
  | some existing =>
    let next := applyEmailUpdate p existing
    ({ db with
        apps := replaceById Application.id db.apps existing.id next
        events := db.events ++ [ingestEvent next.id p] },
      next)
  | none =>
    let created := createdApplication db.nextId p
    ({ apps := db.apps ++ [created]
       events := db.events ++ [ingestEvent created.id p]
       nextId := db.nextId + 1 },
      created)

/-- The input record of chooseEventType in the sync engine. -/
structure ChooseEventTypeInput where
  hadExisting : Bool
  existingStatus : Option ApplicationStatus
  nextStatus : ApplicationStatus
  manualStatusLocked : Bool

/-- chooseEventType of the sync engine: application_received for a new
group; status_changed only when not manually locked and the status really
differs; email_received otherwise. -/
def chooseEventType (input : ChooseEventTypeInput) : String :=
  if !input.hadExisting then "application_received"
  else
    match input.existingStatus with
    | some s =>
      if !input.manualStatusLocked ∧ s ≠ input.nextStatus then "status_changed"
      else "email_received"
    | none => "email_received"

/-- The findUnique-then-chooseEventType-then-upsert wiring of the
per-message block of runSync (the existing-group lookup, the event-type
decision and the upsert call). -/
def upsertWithEvent (db : AppDb) (p : IngestPayload) : AppDb × Application :=
  let existingGroup := findApp db.apps p.groupSenderDomain p.groupSubjectKey
  let eventType := chooseEventType
    { hadExisting := existingGroup.isSome
      existingStatus := existingGroup.map Application.status
      nextStatus := p.status
      manualStatusLocked := (existingGroup.map Application.manualStatusLocked).getD false }
  createOrUpdateApplicationFromEmail db { p with eventType := eventType }

/-- The hideUnknownRole where-clause of listApplications: a row is kept
(not excluded) exactly when its normalizedRoleTitle differs from the
literal string the filter excludes. -/
def passesHideUnknownRole (a : Application) : Bool :=
  a.normalizedRoleTitle ≠ "unknown-role"

/-- Well-formedness of the Application store: every id is below the
counter, ids are pairwise distinct, and at most one row exists per group
key pair (the composite unique index). -/
def AppDbWf (db : AppDb) : Prop :=
  (∀ a ∈ db.apps, a.id < db.nextId) ∧
  (db.apps.map Application.id).Nodup ∧
  ∀ gsd gsk, ((db.apps.filter (fun a => appKeyIs a gsd gsk)).length ≤ 1)

/-! ## Generic list lemmas for row replacement and unique filters -/

theorem filter_replaceById_vals {α : Type} (getId : α → Nat) (l : List α)
    (tid : Nat) (v : α) (p : α → Bool)
    (h : ∀ x ∈ l, getId x = tid → p v = p x) :
    (replaceById getId l tid v).filter p =
      (l.filter p).map (fun x => if getId x = tid then v else x) := by
  induction l with
  | nil => rfl
  | cons a as ih =>
    have hrest : ∀ x ∈ as, getId x = tid → p v = p x := by
      intro x hx
      exact h x (List.mem_cons_of_mem a hx)
    have ihr := ih hrest
    simp only [replaceById] at ihr
    by_cases hid : getId a = tid
    · have hpa : p v = p a := h a (List.mem_cons_self a as) hid
      cases hp : p a with
      | true => simp [replaceById, List.filter_cons, hid, hp, hpa, ihr]
      | false => simp [replaceById, List.filter_cons, hid, hp, hpa, ihr]
    · cases hp : p a with
      | true => simp [replaceById, List.filter_cons, hid, hp, ihr]
      | false => simp [replaceById, List.filter_cons, hid, hp, ihr]

theorem length_filter_replaceById {α : Type} (getId : α → Nat) (l : List α)
    (tid : Nat) (v : α) (p : α → Bool) :
    ((replaceById getId l tid v).filter p).length =
      (l.filter (fun x => if getId x = tid then p v else p x)).length := by
  induction l with
  | nil => rfl
  | cons a as ih =>
    simp only [replaceById] at ih
    by_cases hid : getId a = tid
    · cases hpv : p v with
      | true => simp [replaceById, List.filter_cons, hid, hpv, ih]
      | false => simp [replaceById, List.filter_cons, hid, hpv, ih]
    · cases hp : p a with
      | true => simp [replaceById, List.filter_cons, hid, hp, ih]
      | false => simp [replaceById, List.filter_cons, hid, hp, ih]

theorem map_getId_replaceById {α : Type} (getId : α → Nat) (l : List α)
    (tid : Nat) (v : α) (hv : getId v = tid) :
    (replaceById getId l tid v).map getId = l.map getId := by
  induction l with
  | nil => rfl
  | cons a as ih =>
    simp only [replaceById] at ih
    by_cases hid : getId a = tid
    · simp [replaceById, hid, hv, ih]
    · simp [replaceById, hid, ih]

theorem filter_eq_singleton_of_unique {α : Type} {l : List α} {p : α → Bool}
    {t : α} (hlen : (l.filter p).length ≤ 1) (ht : t ∈ l) (hpt : p t = true) :
    l.filter p = [t] := by
  have hmem : t ∈ l.filter p := List.mem_filter.mpr ⟨ht, hpt⟩
  have hpos : 0 < (l.filter p).length := List.length_pos.mpr (by
    intro hnil
    rw [hnil] at hmem
    exact List.not_mem_nil t hmem)
  have hone : (l.filter p).length = 1 := Nat.le_antisymm hlen hpos
  obtain ⟨a, ha⟩ := List.length_eq_one.mp hone
  rw [ha] at hmem
  rw [ha, List.mem_singleton.mp hmem]

theorem find?_of_filter_eq_singleton {α : Type} {l : List α} {p : α → Bool}
    {t : α} (h : l.filter p = [t]) : l.find? p = some t := by
  induction l with
  | nil => simp at h
  | cons a as ih =>
    cases hp : p a with
    | true =>
      rw [List.filter_cons] at h
      simp only [hp, if_true, List.cons.injEq] at h
      obtain ⟨rfl, h2⟩ := h
      simp [List.find?_cons, hp]
    | false =>
      rw [List.filter_cons] at h
      simp only [hp, Bool.false_eq_true, if_false] at h
      simp [List.find?_cons, hp, ih h]

theorem eq_of_mem_of_getId_eq {α : Type} {getId : α → Nat} {l : List α}
    (hnd : (l.map getId).Nodup) {x y : α} (hx : x ∈ l) (hy : y ∈ l)
    (hxy : getId x = getId y) : x = y :=
  List.inj_on_of_nodup_map hnd hx hy hxy

/-! ## Upsert lemmas -/

theorem applyEmailUpdate_id (p : IngestPayload) (e : Application) :
    (applyEmailUpdate p e).id = e.id := rfl

theorem applyEmailUpdate_same_key (p : IngestPayload) (e : Application)
    (gsd gsk : String) :
    appKeyIs (applyEmailUpdate p e) gsd gsk = appKeyIs e gsd gsk := rfl

theorem upsert_eq_of_found {db : AppDb} {p : IngestPayload} {existing : Application}
    (hfind : findApp db.apps (toLowerStr p.groupSenderDomain)
      (toLowerStr p.groupSubjectKey) = some existing) :
    createOrUpdateApplicationFromEmail db p =
      ({ db with
          apps := replaceById Application.id db.apps existing.id
            (applyEmailUpdate p existing)
          events := db.events ++ [ingestEvent existing.id p] },
        applyEmailUpdate p existing) := by
  simp [createOrUpdateApplicationFromEmail, hfind, applyEmailUpdate_id]

theorem upsert_eq_of_not_found {db : AppDb} {p : IngestPayload}
    (hfind : findApp db.apps (toLowerStr p.groupSenderDomain)
      (toLowerStr p.groupSubjectKey) = none) :
    createOrUpdateApplicationFromEmail db p =
      ({ apps := db.apps ++ [createdApplication db.nextId p]
         events := db.events ++ [ingestEvent db.nextId p]
         nextId := db.nextId + 1 },
        createdApplication db.nextId p) := by
  simp [createOrUpdateApplicationFromEmail, hfind, createdApplication]

theorem filter_key_eq_nil_of_find_none {db : AppDb} {gsd gsk : String}
    (hfind : findApp db.apps gsd gsk = none) :
    db.apps.filter (fun a => appKeyIs a gsd gsk) = [] := by
  rw [List.filter_eq_nil_iff]
  intro a ha
  have := List.find?_eq_none.mp hfind a ha
  simpa using this

theorem createdApplication_key (newId : Nat) (p : IngestPayload) :
    appKeyIs (createdApplication newId p) (toLowerStr p.groupSenderDomain)
      (toLowerStr p.groupSubjectKey) = true := by
  simp [appKeyIs, createdApplication]

/-- After any upsert, the rows carrying the payload group key are exactly
the returned application. -/
theorem upsert_keyFilter (db : AppDb) (p : IngestPayload) (hwf : AppDbWf db) :
    (createOrUpdateApplicationFromEmail db p).1.apps.filter
      (fun a => appKeyIs a (toLowerStr p.groupSenderDomain)
        (toLowerStr p.groupSubjectKey)) =
      [(createOrUpdateApplicationFromEmail db p).2] := by
  obtain ⟨hlt, hnd, huniq⟩ := hwf
  cases hfind : findApp db.apps (toLowerStr p.groupSenderDomain)
      (toLowerStr p.groupSubjectKey) with
  | none =>
    rw [upsert_eq_of_not_found hfind]
    rw [List.filter_append, filter_key_eq_nil_of_find_none hfind]
    simp [createdApplication_key]
  | some existing =>
    have hpred : appKeyIs existing (toLowerStr p.groupSenderDomain)
        (toLowerStr p.groupSubjectKey) = true := by
      have := List.find?_some hfind
      simpa using this
    have hmem : existing ∈ db.apps := List.mem_of_find?_eq_some hfind
    have hsing : db.apps.filter (fun a => appKeyIs a (toLowerStr p.groupSenderDomain)
        (toLowerStr p.groupSubjectKey)) = [existing] :=
      filter_eq_singleton_of_unique
        (huniq (toLowerStr p.groupSenderDomain) (toLowerStr p.groupSubjectKey))
        hmem hpred
    rw [upsert_eq_of_found hfind]
    have hcond : ∀ x ∈ db.apps, x.id = existing.id →
        (fun a => appKeyIs a (toLowerStr p.groupSenderDomain)
          (toLowerStr p.groupSubjectKey)) (applyEmailUpdate p existing) =
        (fun a => appKeyIs a (toLowerStr p.groupSenderDomain)
          (toLowerStr p.groupSubjectKey)) x := by
      intro x hx hid
      have hxe : x = existing := eq_of_mem_of_getId_eq hnd hx hmem hid
      subst hxe
      exact applyEmailUpdate_same_key p x _ _
    rw [filter_replaceById_vals Application.id db.apps existing.id
      (applyEmailUpdate p existing) _ hcond, hsing]
    simp

/-- The store invariants are preserved by every upsert. -/
theorem upsert_wf (db : AppDb) (p : IngestPayload) (hwf : AppDbWf db) :
    AppDbWf (createOrUpdateApplicationFromEmail db p).1 := by
  obtain ⟨hlt, hnd, huniq⟩ := hwf
  cases hfind : findApp db.apps (toLowerStr p.groupSenderDomain)
      (toLowerStr p.groupSubjectKey) with
  | none =>
    rw [upsert_eq_of_not_found hfind]
    refine ⟨?_, ?_, ?_⟩
    · intro a ha
      rcases List.mem_append.mp ha with hin | hone
      · exact Nat.lt_succ_of_lt (hlt a hin)
      · rw [List.mem_singleton.mp hone]
        exact Nat.lt_succ_self _
    · have hnot : db.nextId ∉ db.apps.map Application.id := by
        intro hmem
        obtain ⟨a, ha, hae⟩ := List.mem_map.mp hmem
        exact Nat.lt_irrefl _ (hae ▸ hlt a ha)
      simp only [List.map_append, List.map_cons, List.map_nil]
      rw [List.nodup_append]
      refine ⟨hnd, List.nodup_singleton _, ?_⟩
      intro x hx hy
      simp only [createdApplication, List.mem_singleton] at hy
      rw [hy] at hx
      exact hnot hx
    · intro gsd gsk
      rw [List.filter_append]
      cases hc : appKeyIs (createdApplication db.nextId p) gsd gsk with
      | false =>
        simp only [List.filter_cons, hc, Bool.false_eq_true, if_false,
          List.filter_nil, List.append_nil]
        exact huniq gsd gsk
      | true =>
        have hkey : toLowerStr p.groupSenderDomain = gsd ∧
            toLowerStr p.groupSubjectKey = gsk := by
          have := of_decide_eq_true hc
          exact this
        obtain ⟨h1, h2⟩ := hkey
        rw [← h1, ← h2, filter_key_eq_nil_of_find_none hfind]
        simp [List.filter_cons, createdApplication_key]
  | some existing =>
    have hmem : existing ∈ db.apps := List.mem_of_find?_eq_some hfind
    rw [upsert_eq_of_found hfind]
    refine ⟨?_, ?_, ?_⟩
    · intro a ha
      simp only [replaceById, List.mem_map] at ha
      obtain ⟨x, hx, rfl⟩ := ha
      by_cases hid : x.id = existing.id
      · simpa [hid, applyEmailUpdate_id] using hlt existing hmem
      · simpa [hid] using hlt x hx
    · rw [map_getId_replaceById Application.id db.apps existing.id
        (applyEmailUpdate p existing) (applyEmailUpdate_id p existing)]
      exact hnd
    · intro gsd gsk
      have hcond : ∀ x ∈ db.apps, x.id = existing.id →
          (fun a => appKeyIs a gsd gsk) (applyEmailUpdate p existing) =
          (fun a => appKeyIs a gsd gsk) x := by
        intro x hx hid
        have hxe : x = existing := eq_of_mem_of_getId_eq hnd hx hmem hid
        subst hxe
        exact applyEmailUpdate_same_key p x _ _
      rw [filter_replaceById_vals Application.id db.apps existing.id
        (applyEmailUpdate p existing) _ hcond, List.length_map]
      exact huniq gsd gsk

/-- C1: two ingestion payloads whose group keys lowercase to the same pair
resolve, in either processing order, to the same Application row; exactly
one row with that key pair exists afterwards, and the store uniqueness
invariant (at most one Application per pair) is preserved. -/
theorem grouping_convergence (db : AppDb) (p1 p2 : IngestPayload)
    (hwf : AppDbWf db)
    (hd : toLowerStr p1.groupSenderDomain = toLowerStr p2.groupSenderDomain)
    (hk : toLowerStr p1.groupSubjectKey = toLowerStr p2.groupSubjectKey) :
    (createOrUpdateApplicationFromEmail
        (createOrUpdateApplicationFromEmail db p1).1 p2).2.id =
      (createOrUpdateApplicationFromEmail db p1).2.id ∧
    ((createOrUpdateApplicationFromEmail
        (createOrUpdateApplicationFromEmail db p1).1 p2).1.apps.filter
      (fun a => appKeyIs a (toLowerStr p1.groupSenderDomain)
        (toLowerStr p1.groupSubjectKey))).length = 1 ∧
    AppDbWf (createOrUpdateApplicationFromEmail
        (createOrUpdateApplicationFromEmail db p1).1 p2).1 := by
  have hwf1 := upsert_wf db p1 hwf
  have hf1 := upsert_keyFilter db p1 hwf
  have hsing2 : (createOrUpdateApplicationFromEmail db p1).1.apps.filter
      (fun a => appKeyIs a (toLowerStr p2.groupSenderDomain)
        (toLowerStr p2.groupSubjectKey)) =
      [(createOrUpdateApplicationFromEmail db p1).2] := by
    rw [← hd, ← hk]
    exact hf1
  have hfind2 : findApp (createOrUpdateApplicationFromEmail db p1).1.apps
      (toLowerStr p2.groupSenderDomain) (toLowerStr p2.groupSubjectKey) =
      some (createOrUpdateApplicationFromEmail db p1).2 :=
    find?_of_filter_eq_singleton hsing2
  refine ⟨?_, ?_, ?_⟩
  · rw [upsert_eq_of_found hfind2]
    exact applyEmailUpdate_id p2 _
  · have hf2 := upsert_keyFilter (createOrUpdateApplicationFromEmail db p1).1 p2 hwf1
    rw [hd, hk, hf2]
    rfl
  · exact upsert_wf _ p2 hwf1

/-- C8: when the upsert updates an existing Application, the placeholder
role "unknown-role" leaves roleTitle and normalizedRoleTitle at their
stored values, the placeholder company "Unknown Company" leaves
companyName at its stored value, and lastActivityAt is always set to the
incoming message timestamp. -/
theorem update_field_preservation (db : AppDb) (p : IngestPayload)
    (existing : Application)
    (hfind : findApp db.apps (toLowerStr p.groupSenderDomain)
      (toLowerStr p.groupSubjectKey) = some existing) :
    (p.roleTitle = "unknown-role" →
      (createOrUpdateApplicationFromEmail db p).2.roleTitle = existing.roleTitle ∧
      (createOrUpdateApplicationFromEmail db p).2.normalizedRoleTitle =
        existing.normalizedRoleTitle) ∧
    (p.companyName = "Unknown Company" →
      (createOrUpdateApplicationFromEmail db p).2.companyName =
        existing.companyName) ∧
    (createOrUpdateApplicationFromEmail db p).2.lastActivityAt = p.eventAt := by
  rw [upsert_eq_of_found hfind]
  refine ⟨fun hrole => ?_, fun hcomp => ?_, ?_⟩
  · constructor
    · simp [applyEmailUpdate, hrole]
    · simp [applyEmailUpdate, hrole]
  · simp [applyEmailUpdate, hcomp]
  · rfl

/-- C4: ingesting a further email of an existing, manually locked group
whose resolved status differs from the stored one leaves the status
unchanged, still bumps lastActivityAt to the message timestamp, and
appends an email_received event rather than a status_changed one. -/
theorem manual_lock_respected (db : AppDb) (p : IngestPayload)
    (existing : Application)
    (hfind : findApp db.apps p.groupSenderDomain p.groupSubjectKey = some existing)
    (hgsd : toLowerStr p.groupSenderDomain = p.groupSenderDomain)
    (hgsk : toLowerStr p.groupSubjectKey = p.groupSubjectKey)
    (hlock : existing.manualStatusLocked = true)
    (_hdiff : p.status ≠ existing.status) :
    (upsertWithEvent db p).2.status = existing.status ∧
    (upsertWithEvent db p).2.lastActivityAt = p.eventAt ∧
    (upsertWithEvent db p).1.events = db.events ++
      [{ applicationId := existing.id
         eventType := "email_received"
         eventAt := p.eventAt
         emailMessageId := some p.sourceEmailMessageId
         detailsJson := p.eventDetails }] := by
  have he : upsertWithEvent db p =
      createOrUpdateApplicationFromEmail db { p with eventType := "email_received" } := by
    simp only [upsertWithEvent, hfind]
    congr 1
    simp [chooseEventType, hlock]
  have hfind2 : findApp db.apps
      (toLowerStr ({ p with eventType := "email_received" } : IngestPayload).groupSenderDomain)
      (toLowerStr ({ p with eventType := "email_received" } : IngestPayload).groupSubjectKey) =
      some existing := by
    show findApp db.apps (toLowerStr p.groupSenderDomain)
      (toLowerStr p.groupSubjectKey) = some existing
    rw [hgsd, hgsk]
    exact hfind
  rw [he, upsert_eq_of_found hfind2]
  refine ⟨?_, rfl, ?_⟩
  · simp [applyEmailUpdate, hlock]
  · rfl

/-- C10: normalizeRole maps the sentinel "unknown-role" to "unknown role"
(dash replaced by a space), so an Application created from an unresolved
role stores normalizedRoleTitle "unknown role", which the hideUnknownRole
filter of listApplications (excluding exactly "unknown-role") never
excludes. -/
theorem unknown_role_not_hidden (db : AppDb) (p : IngestPayload)
    (hfind : findApp db.apps (toLowerStr p.groupSenderDomain)
      (toLowerStr p.groupSubjectKey) = none)
    (hrole : p.roleTitle = "unknown-role") :
    normalizeRole "unknown-role" = "unknown role" ∧
    (createOrUpdateApplicationFromEmail db p).2.normalizedRoleTitle =
      "unknown role" ∧
    passesHideUnknownRole (createOrUpdateApplicationFromEmail db p).2 = true := by
  have hnr : normalizeRole "unknown-role" = "unknown role" := by decide
  refine ⟨hnr, ?_, ?_⟩
  · rw [upsert_eq_of_not_found hfind]
    simp [createdApplication, hrole, hnr]
  · rw [upsert_eq_of_not_found hfind]
    simp [passesHideUnknownRole, createdApplication, hrole, hnr]

/-! ## Sample data for the witnesses -/

def samplePayload : IngestPayload :=
  { companyDomain := "acme.com"
    roleTitle := "software engineer"
    groupSenderDomain := "acme.com"
    groupSubjectKey := "acme-software-engineer"
    sourceEmailMessageId := 1
    status := .received
    eventType := "application_received"
    eventDetails := ""
    companyName := "Acme"
    eventAt := 1000 }

def emptyAppDb : AppDb := { apps := [], events := [], nextId := 0 }

theorem emptyAppDb_wf : AppDbWf emptyAppDb :=
  ⟨by intro a ha; simp [emptyAppDb] at ha,
   by simp [emptyAppDb],
   by intro gsd gsk; simp [emptyAppDb]⟩

def lockedApp : Application :=
  { id := 0
    companyName := "Acme"
    companyDomain := "acme.com"
    roleTitle := "software engineer"
    normalizedRoleTitle := "software engineer"
    groupSenderDomain := "acme.com"
    groupSubjectKey := "acme-software-engineer"
    status := .interview
    sourceEmailMessageId := some 1
    manualStatusLocked := true
    firstSeenAt := 0
    lastActivityAt := 0 }

def lockedDb : AppDb := { apps := [lockedApp], events := [], nextId := 1 }

def rejectedPayload : IngestPayload :=
  { samplePayload with status := .rejected, eventType := "status_changed", eventAt := 5000 }

def unknownPayload : IngestPayload :=
  { samplePayload with
    roleTitle := "unknown-role"
    companyName := "Unknown Company"
    eventAt := 7000 }

/-- Witness for C1 on the empty store with the same payload twice. -/
theorem grouping_convergence_witness :
    AppDbWf emptyAppDb ∧
    ((createOrUpdateApplicationFromEmail
        (createOrUpdateApplicationFromEmail emptyAppDb samplePayload).1
        samplePayload).2.id =
      (createOrUpdateApplicationFromEmail emptyAppDb samplePayload).2.id ∧
    ((createOrUpdateApplicationFromEmail
        (createOrUpdateApplicationFromEmail emptyAppDb samplePayload).1
        samplePayload).1.apps.filter
      (fun a => appKeyIs a (toLowerStr samplePayload.groupSenderDomain)
        (toLowerStr samplePayload.groupSubjectKey))).length = 1 ∧
    AppDbWf (createOrUpdateApplicationFromEmail
        (createOrUpdateApplicationFromEmail emptyAppDb samplePayload).1
        samplePayload).1) :=
  ⟨emptyAppDb_wf,
    grouping_convergence emptyAppDb samplePayload samplePayload emptyAppDb_wf rfl rfl⟩

/-- Witness for C8 on a store holding one application, with both
placeholders incoming. -/
theorem update_field_preservation_witness :
    findApp lockedDb.apps (toLowerStr unknownPayload.groupSenderDomain)
      (toLowerStr unknownPayload.groupSubjectKey) = some lockedApp ∧
    unknownPayload.roleTitle = "unknown-role" ∧
    unknownPayload.companyName = "Unknown Company" ∧
    ((createOrUpdateApplicationFromEmail lockedDb unknownPayload).2.roleTitle =
        lockedApp.roleTitle ∧
      (createOrUpdateApplicationFromEmail lockedDb unknownPayload).2.normalizedRoleTitle =
        lockedApp.normalizedRoleTitle) ∧
    ((createOrUpdateApplicationFromEmail lockedDb unknownPayload).2.companyName =
        lockedApp.companyName) ∧
    (createOrUpdateApplicationFromEmail lockedDb unknownPayload).2.lastActivityAt =
      unknownPayload.eventAt :=
  ⟨rfl, rfl, rfl,
    (update_field_preservation lockedDb unknownPayload lockedApp rfl).1 rfl,
    (update_field_preservation lockedDb unknownPayload lockedApp rfl).2.1 rfl,
    (update_field_preservation lockedDb unknownPayload lockedApp rfl).2.2⟩

/-- Witness for C4 on a locked interview application receiving a rejected
classification. -/
theorem manual_lock_respected_witness :
    findApp lockedDb.apps rejectedPayload.groupSenderDomain
      rejectedPayload.groupSubjectKey = some lockedApp ∧
    lockedApp.manualStatusLocked = true ∧
    rejectedPayload.status ≠ lockedApp.status ∧
    (upsertWithEvent lockedDb rejectedPayload).2.status = lockedApp.status ∧
    (upsertWithEvent lockedDb rejectedPayload).2.lastActivityAt =
      rejectedPayload.eventAt ∧
    (upsertWithEvent lockedDb rejectedPayload).1.events = lockedDb.events ++
      [{ applicationId := lockedApp.id
         eventType := "email_received"
         eventAt := rejectedPayload.eventAt
         emailMessageId := some rejectedPayload.sourceEmailMessageId
         detailsJson := rejectedPayload.eventDetails }] :=
  ⟨rfl, rfl, by decide,
    (manual_lock_respected lockedDb rejectedPayload lockedApp rfl rfl rfl rfl
      (by decide)).1,
    (manual_lock_respected lockedDb rejectedPayload lockedApp rfl rfl rfl rfl
      (by decide)).2.1,
    (manual_lock_respected lockedDb rejectedPayload lockedApp rfl rfl rfl rfl
      (by decide)).2.2⟩

/-- Witness for C10 on the empty store with an unresolved role. -/
theorem unknown_role_not_hidden_witness :
    findApp emptyAppDb.apps (toLowerStr unknownPayload.groupSenderDomain)
      (toLowerStr unknownPayload.groupSubjectKey) = none ∧
    unknownPayload.roleTitle = "unknown-role" ∧
    (normalizeRole "unknown-role" = "unknown role" ∧
      (createOrUpdateApplicationFromEmail emptyAppDb unknownPayload).2.normalizedRoleTitle =
        "unknown role" ∧
      passesHideUnknownRole
        (createOrUpdateApplicationFromEmail emptyAppDb unknownPayload).2 = true) :=
  ⟨rfl, rfl, unknown_role_not_hidden emptyAppDb unknownPayload rfl rfl⟩

/-! ## Follow-up scheduler (followupService.ts) -/

/-- The FollowupTask row; state is one of open, done, snoozed. -/
structure FollowupTask where
  id : Nat
  applicationId : Nat
  dueAt : Int
  reason : String
  state : String
deriving DecidableEq

/-- The FollowupTask table with its id counter. -/
structure TaskStore where
  tasks : List FollowupTask
  nextId : Nat
deriving DecidableEq

/-- TERMINAL_STATUSES of followupService.ts. -/
def TERMINAL_STATUSES : List ApplicationStatus := [.rejected, .offer, .withdrawn]

def isTerminal (s : ApplicationStatus) : Bool := TERMINAL_STATUSES.contains s

/-- The where-clause of the findFirst call: open task of this
application. -/
def openTaskPred (appId : Nat) (t : FollowupTask) : Bool :=
  t.applicationId = appId ∧ t.state = "open"

/-- Two-row comparison realizing the orderBy dueAt ascending of
findFirst; on ties the earlier row wins. -/
def pickEarlier (a b : FollowupTask) : FollowupTask :=
  if b.dueAt < a.dueAt then b else a

/-- findFirst with where open-task and orderBy dueAt ascending. -/
def findOpenTask (l : List FollowupTask) (appId : Nat) : Option FollowupTask :=
  match l.filter (openTaskPred appId) with
  | [] => none
  | h :: t => some (t.foldl pickEarlier h)

/-- Calendar day addition of the dueAt computation, modelled at a fixed
86400000 ms per day. -/
def addDays (t : Int) (d : Int) : Int := t + d * 86400000

/-- The reason string written by refreshFollowupForApplication. -/
def followupReason (d : Int) : String :=
  "No update for " ++ toString d ++ " days"

/-- refreshFollowupForApplication of followupService.ts: find the open
task; on a terminal status close it (if any); otherwise create an open
task at the computed due date when none exists, or correct the due date
in place when it drifts by more than 1000 ms. -/
def refreshFollowupForApplication (app : Application) (followupAfterDays : Int)
    (ts : TaskStore) : TaskStore :=
  let openTask := findOpenTask ts.tasks app.id
  if isTerminal app.status then
    match openTask with
    | some t =>
      { ts with tasks := (replaceById FollowupTask.id ts.tasks t.id
          { t with state := "done" }) }
    | none => ts
  else
    let dueAt := addDays app.lastActivityAt followupAfterDays
    match openTask with
    | none =>
      { tasks := ts.tasks ++
          [{ id := ts.nextId, applicationId := app.id, dueAt := dueAt,
             reason := followupReason followupAfterDays, state := "open" }]
        nextId := ts.nextId + 1 }
    | some t =>
      if 1000 < |t.dueAt - dueAt| then
        { ts with tasks := (replaceById FollowupTask.id ts.tasks t.id
            { t with dueAt := dueAt, reason := followupReason followupAfterDays }) }
      else ts

/-- Task-store well-formedness: ids below the counter and pairwise
distinct. -/
def TaskStoreWf (ts : TaskStore) : Prop :=
  (∀ t ∈ ts.tasks, t.id < ts.nextId) ∧ (ts.tasks.map FollowupTask.id).Nodup

/-- The open FollowupTask rows of one application. -/
def openTasksFor (ts : TaskStore) (appId : Nat) : List FollowupTask :=
  ts.tasks.filter (openTaskPred appId)

/-- Number of open FollowupTask rows of one application. -/
def openCount (ts : TaskStore) (appId : Nat) : Nat :=
  (openTasksFor ts appId).length

/-- A sequence of refresh calls, folded over the store. -/
def refreshSeq (steps : List (Application × Int)) (ts : TaskStore) : TaskStore :=
  steps.foldl (fun acc s => refreshFollowupForApplication s.1 s.2 acc) ts

/-! ## Follow-up lemmas -/

theorem pickEarlier_cases (a b : FollowupTask) :
    pickEarlier a b = a ∨ pickEarlier a b = b := by
  unfold pickEarlier
  split
  · right; rfl
  · left; rfl

theorem foldl_pickEarlier_mem (h : FollowupTask) (rest : List FollowupTask) :
    rest.foldl pickEarlier h ∈ h :: rest := by
  induction rest generalizing h with
  | nil => simp
  | cons b bs ih =>
    rw [List.foldl_cons]
    have hmem := ih (pickEarlier h b)
    rcases List.mem_cons.mp hmem with he | hm
    · rcases pickEarlier_cases h b with h1 | h1
      · rw [he, h1]; exact List.mem_cons_self _ _
      · rw [he, h1]; exact List.mem_cons_of_mem _ (List.mem_cons_self _ _)
    · exact List.mem_cons_of_mem _ (List.mem_cons_of_mem _ hm)

theorem findOpenTask_none_iff (l : List FollowupTask) (appId : Nat) :
    findOpenTask l appId = none ↔ l.filter (openTaskPred appId) = [] := by
  unfold findOpenTask
  cases hf : l.filter (openTaskPred appId) with
  | nil => simp
  | cons h t => simp

theorem findOpenTask_mem_filter {l : List FollowupTask} {appId : Nat}
    {t : FollowupTask} (h : findOpenTask l appId = some t) :
    t ∈ l.filter (openTaskPred appId) := by
  unfold findOpenTask at h
  cases hf : l.filter (openTaskPred appId) with
  | nil => rw [hf] at h; simp at h
  | cons a rest =>
    rw [hf] at h
    simp only [Option.some.injEq] at h
    exact h ▸ foldl_pickEarlier_mem a rest

theorem findOpenTask_of_singleton {l : List FollowupTask} {appId : Nat}
    {t : FollowupTask} (h : l.filter (openTaskPred appId) = [t]) :
    findOpenTask l appId = some t := by
  unfold findOpenTask
  rw [h]
  rfl

theorem openFilter_singleton {ts : TaskStore} {appId : Nat} {t : FollowupTask}
    (h1 : openCount ts appId ≤ 1) (hfind : findOpenTask ts.tasks appId = some t) :
    ts.tasks.filter (openTaskPred appId) = [t] := by
  have hmem := findOpenTask_mem_filter hfind
  have ht : t ∈ ts.tasks := (List.mem_filter.mp hmem).1
  have hpt : openTaskPred appId t = true := (List.mem_filter.mp hmem).2
  exact filter_eq_singleton_of_unique h1 ht hpt

/-- Refreshing under the at-most-one-open hypothesis: a terminal status
leaves no open task for the application; a non-terminal status leaves
exactly one, and its due date is within 1000 ms of the computed one. -/
theorem refresh_openTasks (app : Application) (d : Int) (ts : TaskStore)
    (hwf : TaskStoreWf ts) (h1 : openCount ts app.id ≤ 1) :
    (isTerminal app.status = true →
      openTasksFor (refreshFollowupForApplication app d ts) app.id = []) ∧
    (isTerminal app.status = false →
      ∃ t, openTasksFor (refreshFollowupForApplication app d ts) app.id = [t] ∧
        t.applicationId = app.id ∧ t.state = "open" ∧
        |t.dueAt - addDays app.lastActivityAt d| ≤ 1000) := by
  obtain ⟨hlt, hnd⟩ := hwf
  constructor
  · intro hterm
    cases hfind : findOpenTask ts.tasks app.id with
    | none =>
      have hnil := (findOpenTask_none_iff ts.tasks app.id).mp hfind
      simp only [refreshFollowupForApplication, hterm, hfind, if_true]
      exact hnil
    | some t =>
      have hsing := openFilter_singleton h1 hfind
      simp only [refreshFollowupForApplication, hterm, hfind, if_true]
      show (replaceById FollowupTask.id ts.tasks t.id
        { t with state := "done" }).filter (openTaskPred app.id) = []
      rw [List.filter_eq_nil_iff]
      intro x hx
      simp only [replaceById, List.mem_map] at hx
      obtain ⟨y, hy, rfl⟩ := hx
      by_cases hid : y.id = t.id
      · simp [hid, openTaskPred]
      · simp only [hid, if_neg, if_false]
        intro hpy
        have hyf : y ∈ ts.tasks.filter (openTaskPred app.id) :=
          List.mem_filter.mpr ⟨hy, hpy⟩
        rw [hsing, List.mem_singleton] at hyf
        exact hid (by rw [hyf])
  · intro hterm
    cases hfind : findOpenTask ts.tasks app.id with
    | none =>
      have hnil := (findOpenTask_none_iff ts.tasks app.id).mp hfind
      simp only [refreshFollowupForApplication, hterm, hfind, Bool.false_eq_true,
        if_false]
      refine ⟨FollowupTask.mk ts.nextId app.id (addDays app.lastActivityAt d)
        (followupReason d) "open", ?_, rfl, rfl, by simp⟩
      show (ts.tasks ++ [_]).filter (openTaskPred app.id) = _
      rw [List.filter_append, hnil]
      simp [openTaskPred]
    | some t =>
      have hsing := openFilter_singleton h1 hfind
      have hmem := findOpenTask_mem_filter hfind
      have ht : t ∈ ts.tasks := (List.mem_filter.mp hmem).1
      have hpt : openTaskPred app.id t = true := (List.mem_filter.mp hmem).2
      have hpt2 := of_decide_eq_true hpt
      by_cases hdrift : 1000 < |t.dueAt - addDays app.lastActivityAt d|
      · simp only [refreshFollowupForApplication, hterm, hfind, Bool.false_eq_true,
          if_false, hdrift, if_true]
        have hcond : ∀ x ∈ ts.tasks, x.id = t.id →
            openTaskPred app.id (FollowupTask.mk t.id t.applicationId
              (addDays app.lastActivityAt d) (followupReason d) t.state) =
            openTaskPred app.id x := by
          intro x hx hid
          have hxe : x = t := eq_of_mem_of_getId_eq hnd hx ht hid
          subst hxe
          rfl
        refine ⟨FollowupTask.mk t.id t.applicationId (addDays app.lastActivityAt d)
          (followupReason d) t.state, ?_, hpt2.1, hpt2.2, by simp⟩
        show (replaceById FollowupTask.id ts.tasks t.id _).filter
          (openTaskPred app.id) = _
        rw [filter_replaceById_vals FollowupTask.id ts.tasks t.id _ _ hcond, hsing]
        simp
      · simp only [refreshFollowupForApplication, hterm, hfind, Bool.false_eq_true,
          if_false, hdrift]
        refine ⟨t, ?_, hpt2.1, hpt2.2, not_lt.mp hdrift⟩
        exact hsing

theorem map_replace_fix {α : Type} (f : α → α) (l : List α)
    (h : ∀ x ∈ l, f x = x) : l.map f = l := by
  induction l with
  | nil => rfl
  | cons a as ih =>
    rw [List.map_cons, h a (List.mem_cons_self a as),
      ih (fun x hx => h x (List.mem_cons_of_mem a hx))]

/-- The new open task created by the non-terminal, none-found branch. -/
def createdTask (app : Application) (d : Int) (nextId : Nat) : FollowupTask :=
  FollowupTask.mk nextId app.id (addDays app.lastActivityAt d) (followupReason d) "open"

theorem refresh_eq_term_some (app : Application) (d : Int) (ts : TaskStore)
    (t : FollowupTask) (hterm : isTerminal app.status = true)
    (hfind : findOpenTask ts.tasks app.id = some t) :
    refreshFollowupForApplication app d ts =
      { ts with tasks := (replaceById FollowupTask.id ts.tasks t.id
        (FollowupTask.mk t.id t.applicationId t.dueAt t.reason "done")) } := by
  simp only [refreshFollowupForApplication, hterm, hfind, if_true]

theorem refresh_eq_term_none (app : Application) (d : Int) (ts : TaskStore)
    (hterm : isTerminal app.status = true)
    (hfind : findOpenTask ts.tasks app.id = none) :
    refreshFollowupForApplication app d ts = ts := by
  simp only [refreshFollowupForApplication, hterm, hfind, if_true]

theorem refresh_eq_create (app : Application) (d : Int) (ts : TaskStore)
    (hterm : isTerminal app.status = false)
    (hfind : findOpenTask ts.tasks app.id = none) :
    refreshFollowupForApplication app d ts =
      { tasks := ts.tasks ++ [createdTask app d ts.nextId]
        nextId := ts.nextId + 1 } := by
  simp only [refreshFollowupForApplication, hterm, Bool.false_eq_true, if_false,
    hfind, createdTask]

theorem refresh_eq_update (app : Application) (d : Int) (ts : TaskStore)
    (t : FollowupTask) (hterm : isTerminal app.status = false)
    (hfind : findOpenTask ts.tasks app.id = some t)
    (hdrift : 1000 < |t.dueAt - addDays app.lastActivityAt d|) :
    refreshFollowupForApplication app d ts =
      { ts with tasks := (replaceById FollowupTask.id ts.tasks t.id
        (FollowupTask.mk t.id t.applicationId (addDays app.lastActivityAt d)
          (followupReason d) t.state)) } := by
  simp only [refreshFollowupForApplication, hterm, Bool.false_eq_true, if_false,
    hfind, hdrift, if_true]

theorem refresh_eq_keep (app : Application) (d : Int) (ts : TaskStore)
    (t : FollowupTask) (hterm : isTerminal app.status = false)
    (hfind : findOpenTask ts.tasks app.id = some t)
    (hnear : ¬ 1000 < |t.dueAt - addDays app.lastActivityAt d|) :
    refreshFollowupForApplication app d ts = ts := by
  simp only [refreshFollowupForApplication, hterm, Bool.false_eq_true, if_false,
    hfind, hnear, if_false]

/-- A refresh for one application does not change the open tasks of any
other application. -/
theorem refresh_openTasks_other (app : Application) (d : Int) (ts : TaskStore)
    (hwf : TaskStoreWf ts) (A : Nat) (hA : A ≠ app.id) :
    openTasksFor (refreshFollowupForApplication app d ts) A =
      openTasksFor ts A := by
  obtain ⟨hlt, hnd⟩ := hwf
  have fix_replace : ∀ (t : FollowupTask) (v : FollowupTask),
      t ∈ ts.tasks.filter (openTaskPred app.id) →
      openTaskPred A v = false →
      (ts.tasks.filter (openTaskPred A)).map
        (fun x => if x.id = t.id then v else x) =
        ts.tasks.filter (openTaskPred A) := by
    intro t v htf hpv
    apply map_replace_fix
    intro x hx
    by_cases hid : x.id = t.id
    · exfalso
      have ht : t ∈ ts.tasks := (List.mem_filter.mp htf).1
      have hpt := of_decide_eq_true (List.mem_filter.mp htf).2
      have hxe : x = t :=
        eq_of_mem_of_getId_eq hnd (List.mem_of_mem_filter hx) ht hid
      have hpx := (List.mem_filter.mp hx).2
      rw [hxe] at hpx
      have hne : ¬ (t.applicationId = A) := by
        rw [hpt.1]
        exact fun h => hA h.symm
      simp [openTaskPred, hne] at hpx
    · rw [if_neg hid]
  have hne_of : ∀ t : FollowupTask, t ∈ ts.tasks.filter (openTaskPred app.id) →
      ¬ (t.applicationId = A) := by
    intro t htf
    have hpt := of_decide_eq_true (List.mem_filter.mp htf).2
    rw [hpt.1]
    exact fun h => hA h.symm
  rcases Bool.eq_false_or_eq_true (isTerminal app.status) with hterm | hterm
  · cases hfind : findOpenTask ts.tasks app.id with
    | none => rw [refresh_eq_term_none app d ts hterm hfind]
    | some t =>
      have htf := findOpenTask_mem_filter hfind
      have ht : t ∈ ts.tasks := (List.mem_filter.mp htf).1
      have hne := hne_of t htf
      rw [refresh_eq_term_some app d ts t hterm hfind]
      show (replaceById FollowupTask.id ts.tasks t.id
        (FollowupTask.mk t.id t.applicationId t.dueAt t.reason "done")).filter
        (openTaskPred A) = ts.tasks.filter (openTaskPred A)
      have hcond : ∀ x ∈ ts.tasks, x.id = t.id →
          openTaskPred A (FollowupTask.mk t.id t.applicationId t.dueAt t.reason
            "done") = openTaskPred A x := by
        intro x hx hid
        have hxe : x = t := eq_of_mem_of_getId_eq hnd hx ht hid
        subst hxe
        simp [openTaskPred, hne]
      rw [filter_replaceById_vals FollowupTask.id ts.tasks t.id _ _ hcond]
      exact fix_replace t _ htf (by simp [openTaskPred, hne])
  · cases hfind : findOpenTask ts.tasks app.id with
    | none => rw [refresh_eq_create app d ts hterm hfind]
              show (ts.tasks ++ [createdTask app d ts.nextId]).filter
                (openTaskPred A) = ts.tasks.filter (openTaskPred A)
              rw [List.filter_append]
              have hcf : openTaskPred A (createdTask app d ts.nextId) = false := by
                simp only [createdTask, openTaskPred]
                simp
                intro h
                exact absurd h.symm hA
              simp [List.filter_cons, hcf]
    | some t =>
      have htf := findOpenTask_mem_filter hfind
      have ht : t ∈ ts.tasks := (List.mem_filter.mp htf).1
      have hne := hne_of t htf
      by_cases hdrift : 1000 < |t.dueAt - addDays app.lastActivityAt d|
      · rw [refresh_eq_update app d ts t hterm hfind hdrift]
        show (replaceById FollowupTask.id ts.tasks t.id
          (FollowupTask.mk t.id t.applicationId (addDays app.lastActivityAt d)
            (followupReason d) t.state)).filter (openTaskPred A) =
          ts.tasks.filter (openTaskPred A)
        have hcond : ∀ x ∈ ts.tasks, x.id = t.id →
            openTaskPred A (FollowupTask.mk t.id t.applicationId
              (addDays app.lastActivityAt d) (followupReason d) t.state) =
            openTaskPred A x := by
          intro x hx hid
          have hxe : x = t := eq_of_mem_of_getId_eq hnd hx ht hid
          subst hxe
          rfl
        rw [filter_replaceById_vals FollowupTask.id ts.tasks t.id _ _ hcond]
        exact fix_replace t _ htf (by simp [openTaskPred, hne])
      · rw [refresh_eq_keep app d ts t hterm hfind hdrift]
/-- Every refresh preserves the task-store well-formedness. -/
theorem refresh_wf (app : Application) (d : Int) (ts : TaskStore)
    (hwf : TaskStoreWf ts) :
    TaskStoreWf (refreshFollowupForApplication app d ts) := by
  obtain ⟨hlt, hnd⟩ := hwf
  have wf_replace : ∀ (t v : FollowupTask), t ∈ ts.tasks → v.id = t.id →
      TaskStoreWf { ts with tasks := (replaceById FollowupTask.id ts.tasks t.id v) } := by
    intro t v ht hvid
    constructor
    · intro x hx
      simp only [replaceById, List.mem_map] at hx
      obtain ⟨y, hy, rfl⟩ := hx
      by_cases hid : y.id = t.id
      · have : v.id = t.id := hvid
        simpa [hid, this] using hlt t ht
      · simpa [hid] using hlt y hy
    · show ((replaceById FollowupTask.id ts.tasks t.id v).map FollowupTask.id).Nodup
      rw [map_getId_replaceById FollowupTask.id ts.tasks t.id v hvid]
      exact hnd
  rcases Bool.eq_false_or_eq_true (isTerminal app.status) with hterm | hterm
  · cases hfind : findOpenTask ts.tasks app.id with
    | none =>
      rw [refresh_eq_term_none app d ts hterm hfind]
      exact ⟨hlt, hnd⟩
    | some t =>
      have ht : t ∈ ts.tasks :=
        (List.mem_filter.mp (findOpenTask_mem_filter hfind)).1
      rw [refresh_eq_term_some app d ts t hterm hfind]
      exact wf_replace t _ ht rfl
  · cases hfind : findOpenTask ts.tasks app.id with
    | none =>
      rw [refresh_eq_create app d ts hterm hfind]
      constructor
      · intro x hx
        rcases List.mem_append.mp hx with hin | hone
        · exact Nat.lt_succ_of_lt (hlt x hin)
        · rw [List.mem_singleton.mp hone]
          exact Nat.lt_succ_self _
      · have hnot : ts.nextId ∉ ts.tasks.map FollowupTask.id := by
          intro hmem
          obtain ⟨a, ha, hae⟩ := List.mem_map.mp hmem
          exact Nat.lt_irrefl _ (hae ▸ hlt a ha)
        simp only [List.map_append, List.map_cons, List.map_nil]
        rw [List.nodup_append]
        refine ⟨hnd, List.nodup_singleton _, ?_⟩
        intro x hx hy
        simp only [List.mem_singleton] at hy
        rw [hy] at hx
        exact hnot hx
    | some t =>
      have ht : t ∈ ts.tasks :=
        (List.mem_filter.mp (findOpenTask_mem_filter hfind)).1
      by_cases hdrift : 1000 < |t.dueAt - addDays app.lastActivityAt d|
      · rw [refresh_eq_update app d ts t hterm hfind hdrift]
        exact wf_replace t _ ht rfl
      · rw [refresh_eq_keep app d ts t hterm hfind hdrift]
        exact ⟨hlt, hnd⟩
/-- The invariants survive any sequence of refresh calls, for any fixed
application id. -/
theorem refreshSeq_wf_le (A : Nat) (steps : List (Application × Int))
    (ts : TaskStore) (hwf : TaskStoreWf ts) (h : openCount ts A ≤ 1) :
    TaskStoreWf (refreshSeq steps ts) ∧ openCount (refreshSeq steps ts) A ≤ 1 := by
  induction steps generalizing ts with
  | nil => exact ⟨hwf, h⟩
  | cons s rest ih =>
    have hwf2 := refresh_wf s.1 s.2 ts hwf
    have h2 : openCount (refreshFollowupForApplication s.1 s.2 ts) A ≤ 1 := by
      by_cases hid : A = s.1.id
      · subst hid
        rcases Bool.eq_false_or_eq_true (isTerminal s.1.status) with hst | hst
        · have hnil := (refresh_openTasks s.1 s.2 ts hwf h).1 hst
          simp [openCount, hnil]
        · obtain ⟨t, hts, _, _, _⟩ := (refresh_openTasks s.1 s.2 ts hwf h).2 hst
          simp [openCount, hts]
      · rw [openCount, refresh_openTasks_other s.1 s.2 ts hwf A hid]
        exact h
    have hstep : refreshSeq (s :: rest) ts =
        refreshSeq rest (refreshFollowupForApplication s.1 s.2 ts) := rfl
    rw [hstep]
    exact ih _ hwf2 h2

/-- A second refresh with the same inputs is a no-op. -/
theorem refresh_idem (app : Application) (d : Int) (ts : TaskStore)
    (hwf : TaskStoreWf ts) (h1 : openCount ts app.id ≤ 1) :
    refreshFollowupForApplication app d (refreshFollowupForApplication app d ts) =
      refreshFollowupForApplication app d ts := by
  rcases Bool.eq_false_or_eq_true (isTerminal app.status) with hst | hst
  · have hnil := (refresh_openTasks app d ts hwf h1).1 hst
    have hfind2 : findOpenTask
        (refreshFollowupForApplication app d ts).tasks app.id = none :=
      (findOpenTask_none_iff _ _).mpr hnil
    exact refresh_eq_term_none app d _ hst hfind2
  · obtain ⟨t, hts, _, _, hdiff⟩ := (refresh_openTasks app d ts hwf h1).2 hst
    have hfind2 : findOpenTask
        (refreshFollowupForApplication app d ts).tasks app.id = some t :=
      findOpenTask_of_singleton hts
    exact refresh_eq_keep app d _ t hst hfind2 (not_lt.mpr hdiff)

/-- C3: starting from at most one open follow-up task, any sequence of
refresh calls keeps at most one; after one refresh an open task exists
iff the status is non-terminal and its due date is within one second of
lastActivityAt plus the follow-up window; refreshing again with the same
inputs changes nothing. -/
theorem followup_refresh_invariants (app : Application) (d : Int)
    (ts : TaskStore) (hwf : TaskStoreWf ts) (h1 : openCount ts app.id ≤ 1) :
    (∀ steps : List (Application × Int),
      openCount (refreshSeq steps ts) app.id ≤ 1) ∧
    (openCount (refreshFollowupForApplication app d ts) app.id =
      if isTerminal app.status = true then 0 else 1) ∧
    (∀ t ∈ openTasksFor (refreshFollowupForApplication app d ts) app.id,
      |t.dueAt - addDays app.lastActivityAt d| ≤ 1000) ∧
    refreshFollowupForApplication app d (refreshFollowupForApplication app d ts) =
      refreshFollowupForApplication app d ts := by
  refine ⟨fun steps => (refreshSeq_wf_le app.id steps ts hwf h1).2, ?_, ?_,
    refresh_idem app d ts hwf h1⟩
  · rcases Bool.eq_false_or_eq_true (isTerminal app.status) with hst | hst
    · have hnil := (refresh_openTasks app d ts hwf h1).1 hst
      simp [openCount, hnil, hst]
    · obtain ⟨t, hts, _, _, _⟩ := (refresh_openTasks app d ts hwf h1).2 hst
      simp [openCount, hts, hst]
  · intro t htmem
    rcases Bool.eq_false_or_eq_true (isTerminal app.status) with hst | hst
    · have hnil := (refresh_openTasks app d ts hwf h1).1 hst
      rw [hnil] at htmem
      simp at htmem
    · obtain ⟨t2, hts, _, _, hdiff⟩ := (refresh_openTasks app d ts hwf h1).2 hst
      rw [hts, List.mem_singleton] at htmem
      rw [htmem]
      exact hdiff

def emptyTaskStore : TaskStore := { tasks := [], nextId := 0 }

theorem emptyTaskStore_wf : TaskStoreWf emptyTaskStore :=
  ⟨by intro t htm; simp [emptyTaskStore] at htm, by simp [emptyTaskStore]⟩

/-- Witness for C3 on the empty task store and a non-terminal
application. -/
theorem followup_refresh_invariants_witness :
    TaskStoreWf emptyTaskStore ∧
    openCount emptyTaskStore lockedApp.id ≤ 1 ∧
    ((∀ steps : List (Application × Int),
      openCount (refreshSeq steps emptyTaskStore) lockedApp.id ≤ 1) ∧
    (openCount (refreshFollowupForApplication lockedApp 3 emptyTaskStore)
        lockedApp.id =
      if isTerminal lockedApp.status = true then 0 else 1) ∧
    (∀ t ∈ openTasksFor
        (refreshFollowupForApplication lockedApp 3 emptyTaskStore) lockedApp.id,
      |t.dueAt - addDays lockedApp.lastActivityAt 3| ≤ 1000) ∧
    refreshFollowupForApplication lockedApp 3
        (refreshFollowupForApplication lockedApp 3 emptyTaskStore) =
      refreshFollowupForApplication lockedApp 3 emptyTaskStore) :=
  ⟨emptyTaskStore_wf, by decide,
    followup_refresh_invariants lockedApp 3 emptyTaskStore emptyTaskStore_wf
      (by decide)⟩

/-! ## AI extraction adapter (ollamaService.ts, extractWithOllama) -/

/-- The validated extraction payload of ollamaExtractionSchema.  The
include field is named includeFlag. -/
structure OllamaExtraction where
  includeFlag : Bool
  companyName : Option String
  companyDomain : Option String
  roleTitle : Option String
  status : Option String
  normalizedSubjectKey : Option String
  confidence : ℚ
deriving DecidableEq

def leftBrace : Char := Char.ofNat 123

def rightBrace : Char := Char.ofNat 125

def indexOfChar (c : Char) : List Char → Option Nat
  | [] => none
  | a :: as => if a = c then some 0 else (indexOfChar c as).map (· + 1)

def lastIndexOfChar (c : Char) (l : List Char) : Option Nat :=
  match indexOfChar c l.reverse with
  | some i => some (l.length - 1 - i)
  | none => none

/-- extractJsonCandidate of ollamaService.ts: the trimmed text when it is
brace-delimited; else the slice from the first opening brace to the last
closing brace when that slice is non-degenerate; else none. -/
def extractJsonCandidate (text : List Char) : Option (List Char) :=
  let trimmed := trimList text
  let startsB :=
    match trimmed with
    | c :: _ => c = leftBrace
    | [] => false
  let endsB :=
    match trimmed.getLast? with
    | some c => c = rightBrace
    | none => false
  if startsB && endsB then some trimmed
  else
    match indexOfChar leftBrace trimmed, lastIndexOfChar rightBrace trimmed with
    | some s, some e =>
      if e ≤ s then none else some ((trimmed.drop s).take (e + 1 - s))
    | some _, none => none
    | none, _ => none

/-- The observable outcome of one callOllama invocation: the call threw
(network error, timeout abort, or a non-2xx status turned into a throw),
or it returned a generate-response whose optional response field holds
the raw text. -/
inductive OllamaCall
  | throws (msg : String)
  | responds (response : Option String)

/-- The result record of extractWithOllama (ok, value, error); the
diagnostic rawResponse field is not modelled. -/
structure OllamaResultM where
  ok : Bool
  value : Option OllamaExtraction
  error : Option String
deriving DecidableEq

/-- Outcome of one iteration of the attempt loop. -/
inductive AttemptOut
  | success (v : OllamaExtraction) (raw : String)
  | softFail (err : String)
  | hardFail (err : String)
deriving DecidableEq

/-- One attempt of the extractWithOllama loop body.  parseJson and
validate stand for the external JSON.parse and the zod safeParse of
ollamaExtractionSchema: parseJson returning error models JSON.parse
throwing.  A thrown call and a thrown JSON.parse are both caught by the
surrounding catch, which sets lastError and breaks (hardFail); a missing
JSON candidate and a schema-invalid payload set lastError and continue
(softFail). -/
def attemptStep {α : Type} (parseJson : String → Except String α)
    (validate : α → Except String OllamaExtraction) (call : OllamaCall) :
    AttemptOut :=
  match call with
  | .throws msg => .hardFail msg
  | .responds r =>
    let raw := String.mk (trimList (r.getD "").data)
    match extractJsonCandidate raw.data with
    | none => .softFail "Ollama did not return JSON payload"
    | some candidate =>
      match parseJson (String.mk candidate) with
      | .error msg => .hardFail msg
      | .ok parsed =>
        match validate parsed with
        | .error msg => .softFail msg
        | .ok v => .success v raw

/-- extractWithOllama of ollamaService.ts with its two-iteration attempt
loop unrolled; calls gives the outcome of the i-th model call.  Returns
the result together with the number of model calls made.  The function is
total: every exception path of the source is caught inside it. -/
def extractWithOllama {α : Type} (enabled : Bool)
    (parseJson : String → Except String α)
    (validate : α → Except String OllamaExtraction)
    (calls : Nat → OllamaCall) : OllamaResultM × Nat :=
  if !enabled then (⟨false, none, some "Ollama disabled"⟩, 0)
  else
    match attemptStep parseJson validate (calls 0) with
    | .success v _ => (⟨true, some v, none⟩, 1)
    | .hardFail e => (⟨false, none, some e⟩, 1)
    | .softFail _ =>
      match attemptStep parseJson validate (calls 1) with
      | .success v _ => (⟨true, some v, none⟩, 2)
      | .hardFail e => (⟨false, none, some e⟩, 2)
      | .softFail e2 => (⟨false, none, some e2⟩, 2)

/-- A syntactically valid extraction payload used by the test doubles. -/
def okJsonResponse : String :=
  "\x7b\"include\":true,\"companyName\":null,\"companyDomain\":null,\"roleTitle\":null,\"status\":null,\"normalizedSubjectKey\":null,\"confidence\":1\x7d"

def okExtraction : OllamaExtraction :=
  { includeFlag := true
    companyName := none
    companyDomain := none
    roleTitle := none
    status := none
    normalizedSubjectKey := none
    confidence := 1 }

/-- Test double for JSON.parse, consistent with real JSON semantics at
the two concrete payloads used below: the brace-comma-brace payload is
invalid JSON (JSON.parse throws), the well-formed payload parses. -/
def cexParseJson (s : String) : Except String Unit :=
  if s = okJsonResponse then .ok () else .error "Unexpected token in JSON"

/-- Test double for the schema validation: accepts the parsed payload. -/
def cexValidate (_ : Unit) : Except String OllamaExtraction := .ok okExtraction

/-- Call sequence of the counterexample: first response is the invalid
JSON text brace-comma-brace, second response is valid. -/
def cexCalls (i : Nat) : OllamaCall :=
  if i = 0 then .responds (some "\x7b,\x7d") else .responds (some okJsonResponse)

/-- C5 counterexample: the first response is non-JSON (its brace-delimited
slice makes JSON.parse throw), the second response would validate, yet
extractWithOllama does not retry: the catch around JSON.parse breaks the
loop, so it returns ok false after exactly one model call. -/
theorem ollama_retry_counterexample :
    attemptStep cexParseJson cexValidate (cexCalls 0) =
      AttemptOut.hardFail "Unexpected token in JSON" ∧
    attemptStep cexParseJson cexValidate (cexCalls 1) =
      AttemptOut.success okExtraction okJsonResponse ∧
    (extractWithOllama true cexParseJson cexValidate cexCalls).1.ok = false ∧
    (extractWithOllama true cexParseJson cexValidate cexCalls).2 = 1 := by
  refine ⟨by decide, by decide, by decide, by decide⟩

/-- C5 (amended): extractWithOllama makes at most two model calls; when
an attempt yields no brace-delimited JSON candidate or a schema-invalid
payload it retries exactly once, returning ok true if the second attempt
validates; a thrown call error, or a JSON candidate on which JSON.parse
throws, is not retried and yields ok false with the error reason; two
soft failures yield ok false with the last error; it never throws (it is
a total function). -/
theorem ollama_retry_amended {α : Type} (parseJson : String → Except String α)
    (validate : α → Except String OllamaExtraction) (calls : Nat → OllamaCall)
    (enabled : Bool) :
    ((extractWithOllama enabled parseJson validate calls).2 ≤ 2) ∧
    (∀ e1 v raw, attemptStep parseJson validate (calls 0) = .softFail e1 →
      attemptStep parseJson validate (calls 1) = .success v raw →
      extractWithOllama true parseJson validate calls =
        (⟨true, some v, none⟩, 1 + 1)) ∧
    (∀ e, attemptStep parseJson validate (calls 0) = .hardFail e →
      extractWithOllama true parseJson validate calls =
        (⟨false, none, some e⟩, 1)) ∧
    (∀ e1 e2, attemptStep parseJson validate (calls 0) = .softFail e1 →
      attemptStep parseJson validate (calls 1) = .softFail e2 →
      extractWithOllama true parseJson validate calls =
        (⟨false, none, some e2⟩, 1 + 1)) := by
  refine ⟨?_, ?_, ?_, ?_⟩
  · unfold extractWithOllama
    cases enabled with
    | false => simp
    | true =>
      simp only [Bool.not_true, Bool.false_eq_true, if_false]
      cases attemptStep parseJson validate (calls 0) with
      | success v raw => simp
      | hardFail e => simp
      | softFail e1 =>
        cases attemptStep parseJson validate (calls 1) with
        | success v raw => simp
        | hardFail e => simp
        | softFail e2 => simp
  · intro e1 v raw h0 h1
    simp [extractWithOllama, h0, h1]
  · intro e h0
    simp [extractWithOllama, h0]
  · intro e1 e2 h0 h1
    simp [extractWithOllama, h0, h1]

def witCalls (i : Nat) : OllamaCall :=
  if i = 0 then .responds (some "not json") else .responds (some okJsonResponse)

/-- Witness for the amended C5 at a concrete run: the first response has
no JSON candidate, the second validates, and the adapter succeeds after
exactly two calls. -/
theorem ollama_retry_amended_witness :
    attemptStep cexParseJson cexValidate (witCalls 0) =
      AttemptOut.softFail "Ollama did not return JSON payload" ∧
    attemptStep cexParseJson cexValidate (witCalls 1) =
      AttemptOut.success okExtraction okJsonResponse ∧
    extractWithOllama true cexParseJson cexValidate witCalls =
      (⟨true, some okExtraction, none⟩, 1 + 1) :=
  ⟨by decide, by decide,
    (ollama_retry_amended cexParseJson cexValidate witCalls true).2.1
      "Ollama did not return JSON payload" okExtraction okJsonResponse
      (by decide) (by decide)⟩

/-! ## Sync engine helpers (runSync and its pure helpers) -/

/-- The punctuation class stripped at both ends by cleanValue:
whitespace, double quote, single quote, backquote, period, comma, colon,
semicolon, pipe, parentheses, square brackets, curly braces, angle
brackets and dash. -/
def cleanStripClass : List Char :=
  [Char.ofNat 34, Char.ofNat 39, Char.ofNat 96, Char.ofNat 46, Char.ofNat 44,
   Char.ofNat 58, Char.ofNat 59, Char.ofNat 124, Char.ofNat 40, Char.ofNat 41,
   Char.ofNat 91, Char.ofNat 93, Char.ofNat 123, Char.ofNat 125, Char.ofNat 60,
   Char.ofNat 62, Char.ofNat 45]

def isCleanStrip (c : Char) : Bool := isJsWs c || cleanStripClass.contains c

/-- cleanValue of the sync engine: collapse whitespace runs to single
spaces, strip one leading and one trailing run of the punctuation class,
then trim. -/
def cleanValue (s : String) : String :=
  String.mk (trimList (dropTrailWhile isCleanStrip
    ((collapseWs s.data).dropWhile isCleanStrip)))

/-- normalizeDomain of the sync engine: trim, lowercase, strip a leading
run of characters outside a-z0-9 and a trailing run of characters outside
a-z0-9, dot, colon and dash. -/
def isDomainTailKeep (c : Char) : Bool :=
  isLowerAlnum c || c = Char.ofNat 46 || c = Char.ofNat 58 || c = Char.ofNat 45

def normalizeDomain (domain : String) : String :=
  String.mk (dropTrailWhile (fun c => !isDomainTailKeep c)
    ((toLowerList (trimList domain.data)).dropWhile (fun c => !isLowerAlnum c)))

/-- The NOISE_DOMAINS denylist of the sync engine, in source order. -/
def NOISE_DOMAINS : List String :=
  ["accountprotection.microsoft.com", "microsoft.com", "account.microsoft.com",
   "live.com", "hotmail.com", "outlook.com",
   "gmail.com", "accounts.google.com", "google.com",
   "airbnb.com", "booking.com", "expedia.com", "uber.com",
   "email.meetup.com", "meetup.com", "eventbrite.com", "mailchimp.com",
   "constantcontact.com", "sendgrid.net", "klaviyo.com",
   "facebookmail.com", "twitter.com", "instagram.com", "tiktok.com",
   "amazon.com", "ebay.com", "etsy.com", "aliexpress.com",
   "paypal.com", "stripe.com"]

/-- subjectContainsFocus of the sync engine. -/
def subjectContainsFocus (subject : String) (focusTerms : List String) : Bool :=
  let normalized := toLowerList (cleanValue subject).data
  focusTerms.any (fun focus => hasSubstr normalized (toLowerList (cleanValue focus).data))

/-- containsFocus of the sync engine: subject first, then the body. -/
def containsFocus (subject body : String) (focusTerms : List String) : Bool :=
  if subjectContainsFocus subject focusTerms then true
  else
    let normalizedBody := toLowerList (cleanValue body).data
    focusTerms.any (fun focus =>
      hasSubstr normalizedBody (toLowerList (cleanValue focus).data))

def collapseDashGo (prevDash : Bool) : List Char → List Char
  | [] => []
  | c :: rest =>
    if c = Char.ofNat 45 then
      (if prevDash then [] else [Char.ofNat 45]) ++ collapseDashGo true rest
    else c :: collapseDashGo false rest

/-- normalizeGroupSubjectKey of the sync engine: cleanValue, lowercase,
replace characters outside a-z0-9, whitespace and dash by spaces, turn
whitespace runs into dashes, collapse dash runs, strip outer dashes;
empty falls back to the literal key. -/
def normalizeGroupSubjectKey (value : String) : String :=
  let step1 := toLowerList (cleanValue value).data
  let step2 := step1.map (fun c =>
    if isLowerAlnum c || isJsWs c || c = Char.ofNat 45 then c else Char.ofNat 32)
  let step3 := (collapseWs step2).map
    (fun c => if isJsWs c then Char.ofNat 45 else c)
  let step4 := collapseDashGo false step3
  let step5 := dropTrailWhile (fun c => c = Char.ofNat 45)
    (step4.dropWhile (fun c => c = Char.ofNat 45))
  if step5.isEmpty then "thanks-for-applying" else String.mk step5

/-- The seven status names accepted by toApplicationStatus. -/
def statusOfString? (s : String) : Option ApplicationStatus :=
  if s = "submitted" then some .submitted
  else if s = "received" then some .received
  else if s = "rejected" then some .rejected
  else if s = "interview" then some .interview
  else if s = "assessment" then some .assessment
  else if s = "offer" then some .offer
  else if s = "withdrawn" then some .withdrawn
  else none

/-- toApplicationStatus of the sync engine. -/
def toApplicationStatus (candidate : Option String)
    (fallback : ApplicationStatus) : ApplicationStatus :=
  match statusOfString? (toLowerStr (cleanValue (candidate.getD ""))) with
  | some s => s
  | none => fallback

def statusName : ApplicationStatus → String
  | .submitted => "submitted"
  | .received => "received"
  | .rejected => "rejected"
  | .interview => "interview"
  | .assessment => "assessment"
  | .offer => "offer"
  | .withdrawn => "withdrawn"

def predictedName : PredictedStatus → String
  | .known s => statusName s
  | .unclassified => "unclassified"

/-- getRoleTitle of the sync engine, over the looksLikeRoleTitle
heuristic passed as a function (sanitizeRoleTitle is cleanValue). -/
def getRoleTitle (looksRole : String → Bool)
    (aiRole subjectRole parsedRole : String) : String :=
  let aiCandidate := cleanValue aiRole
  if aiCandidate ≠ "" && looksRole aiCandidate then aiCandidate
  else
    let subjectCandidate := cleanValue subjectRole
    if subjectCandidate ≠ "" && looksRole subjectCandidate then subjectCandidate
    else
      let parsedCandidate := cleanValue parsedRole
      if parsedCandidate ≠ "" && looksRole parsedCandidate then parsedCandidate
      else "unknown-role"

/-! ## Per-message sync step (runSync loop body) -/

/-- The normalized message produced by parseGmailMessagePayload (the
message parser is external to the claims; its output shape is what the
loop consumes).  internalDate is the provider timestamp in ms; the NaN
fallback of getMessageDate is outside the integer model. -/
structure ParsedMessage where
  gmailMessageId : String
  threadId : String
  fromEmail : String
  fromDisplayName : String
  toEmail : String
  subject : String
  bodyText : String
  bodyHtml : String
  parsedCompanyDomain : String
  parsedRole : String
  internalDate : Int
deriving DecidableEq

/-- The run statistics counters of runSync. -/
structure SyncStats where
  scanned : Nat
  importedEmails : Nat
  applicationsCreatedOrUpdated : Nat
  statusesUpdated : Nat
  needsReview : Nat
  aiProcessed : Nat
  aiFallbackUsed : Nat
  aiSkipped : Nat
deriving DecidableEq

/-- The EmailMessage row with the fields written by the sync engine.  The
aiExtractionJson diagnostic blob is not modelled. -/
structure EmailRow where
  id : Nat
  gmailMessageId : String
  threadId : String
  direction : String
  fromEmail : String
  toEmail : String
  subject : String
  bodyText : String
  bodyHtml : String
  receivedAt : Int
  parsedCompanyDomain : String
  parsedRole : String
  normalizedRole : String
  classification : String
  groupSenderDomain : String
  groupSubjectKey : String
  aiConfidence : ℚ
  applicationId : Option Nat
deriving DecidableEq

/-- One ClassificationRuleLog row. -/
structure RuleLog where
  emailMessageId : Nat
  matchedRule : String
  predictedStatus : String
  confidence : ℚ
deriving DecidableEq

/-- The persistent and run-local state touched by one iteration of the
runSync message loop. -/
structure SyncState where
  emails : List EmailRow
  emailNextId : Nat
  db : AppDb
  tasks : TaskStore
  logs : List RuleLog
  stats : SyncStats
  skipAiForRun : Bool
  ollamaAbortCount : Nat
deriving DecidableEq

/-- The settings read once per run. -/
structure SyncConfig where
  focusTerms : List String
  minConfidence : ℚ
  followupAfterDays : Int

/-- Outcomes of the external calls and of the pure helpers whose innards
no claim depends on, passed to the step as data: aiResult is the outcome
of the extractWithOllama network call; subjectRoleCandidate and
subjectCompanyCandidate are the two fields of
parseFocusedSubjectCandidates(subject); resolvedCompanyName and
resolvedCompanyDomain are the fields of resolveCompanyIdentity;
looksRole and looksCompany are the looksLikeRoleTitle and
looksLikeCompanyName heuristics. -/
structure ExternalInputs where
  aiResult : OllamaResultM
  subjectRoleCandidate : String
  subjectCompanyCandidate : String
  resolvedCompanyName : String
  resolvedCompanyDomain : String
  looksRole : String → Bool
  looksCompany : String → Bool

/-- upsert of the EmailMessage row by unique gmailMessageId: update all
mutable fields in place when present, create otherwise.  Returns the new
table, the new id counter and the id of the touched row. -/
def upsertEmail (emails : List EmailRow) (nextId : Nat) (gmailMessageId : String)
    (mk : Nat → EmailRow) (upd : EmailRow → EmailRow) :
    List EmailRow × Nat × Nat :=
  match emails.find? (fun e => e.gmailMessageId = gmailMessageId) with
  | some e =>
    (emails.map (fun x => if x.id = e.id then upd x else x), nextId, e.id)
  | none => (emails ++ [mk nextId], nextId + 1, nextId)

/-- Linking the EmailMessage row to its Application (the update setting
the foreign key). -/
def linkEmail (emails : List EmailRow) (emailId : Nat) (appId : Nat) :
    List EmailRow :=
  emails.map (fun e =>
    if e.id = emailId then { e with applicationId := some appId } else e)

/-- The remainder of the runSync loop body once the focus, sender-domain
and noise-domain guards have passed: classify, absorb the AI outcome
(with the abort counter and the run-local circuit breaker), the
ai-skipped early exit, the company-domain guard, group-key and role/status
resolution, the EmailMessage upsert, the event-type decision, the
Application upsert, the foreign-key link, the rule log, the follow-up
refresh and the statistics. -/
def processMessageMain (cfg : SyncConfig) (ext : ExternalInputs)
    (msg : ParsedMessage) (bodyForInference : String) (senderDomain : String)
    (st : SyncState) : SyncState :=
  let classifier := classifyEmailContent msg.subject bodyForInference
  let fallbackStatus :=
    match classifier.predictedStatus with
    | .unclassified => ApplicationStatus.received
    | .known s => s
  let aiResult : OllamaResultM :=
    if st.skipAiForRun then
      ⟨false, none, some "Ollama skipped for this sync run after repeated timeouts"⟩
    else ext.aiResult
  let aiValue := if aiResult.ok then aiResult.value else none
  let aiConfidence := (aiValue.map OllamaExtraction.confidence).getD 0
  let aiConfident := aiValue.isSome && decide (cfg.minConfidence ≤ aiConfidence)
  let st1 :=
    if aiResult.ok then { st with ollamaAbortCount := 0 }
    else if hasSubstr (toLowerList (aiResult.error.getD "").data) ("aborted").data then
      let c := st.ollamaAbortCount + 1
      { st with
        ollamaAbortCount := c
        skipAiForRun := st.skipAiForRun || decide (2 ≤ c) }
    else st
  let st2 :=
    if aiConfident then
      { st1 with stats :=
        { st1.stats with aiProcessed := st1.stats.aiProcessed + 1 } }
    else
      { st1 with stats :=
        { st1.stats with aiFallbackUsed := st1.stats.aiFallbackUsed + 1 } }
  if aiConfident && ((aiValue.map OllamaExtraction.includeFlag) == some false) then
    { st2 with stats := { st2.stats with aiSkipped := st2.stats.aiSkipped + 1 } }
  else
    let companyDomain := normalizeDomain
      (if ext.resolvedCompanyDomain ≠ "" then ext.resolvedCompanyDomain
       else senderDomain)
    if companyDomain = "" then st2
    else
      let groupSenderDomain := senderDomain
      let aiSubjectKey :=
        if aiConfident then (aiValue.bind OllamaExtraction.normalizedSubjectKey).getD ""
        else ""
      let groupSubjectKey := normalizeGroupSubjectKey
        (if aiSubjectKey ≠ "" then aiSubjectKey
         else normalizeSubjectForGroup msg.subject)
      let roleTitle0 := getRoleTitle ext.looksRole
        (if aiConfident then (aiValue.bind OllamaExtraction.roleTitle).getD "" else "")
        ext.subjectRoleCandidate msg.parsedRole
      let swapped := ext.looksRole ext.resolvedCompanyName && !(ext.looksRole roleTitle0)
      let roleTitle := if swapped then ext.resolvedCompanyName else roleTitle0
      let companyName0 :=
        if swapped then inferCompanyNameFromDomain companyDomain
        else ext.resolvedCompanyName
      let companyName :=
        if !(ext.looksCompany companyName0) then inferCompanyNameFromDomain companyDomain
        else companyName0
      let status := toApplicationStatus
        (if aiConfident then aiValue.bind OllamaExtraction.status else none)
        fallbackStatus
      let aiStatusStr := (aiValue.bind OllamaExtraction.status).getD ""
      let classification :=
        if aiConfident && aiStatusStr ≠ "" then aiStatusStr
        else predictedName classifier.predictedStatus
      let eventAt := msg.internalDate
      let existingGroup := findApp st2.db.apps groupSenderDomain groupSubjectKey
      let classificationStored :=
        if cleanValue classification ≠ "" then cleanValue classification
        else "unclassified"
      let mkRow : Nat → EmailRow := fun rid =>
        { id := rid, gmailMessageId := msg.gmailMessageId, threadId := msg.threadId,
          direction := "inbound", fromEmail := msg.fromEmail, toEmail := msg.toEmail,
          subject := msg.subject, bodyText := msg.bodyText, bodyHtml := msg.bodyHtml,
          receivedAt := eventAt, parsedCompanyDomain := senderDomain,
          parsedRole := msg.parsedRole, normalizedRole := normalizeRole roleTitle,
          classification := classificationStored,
          groupSenderDomain := groupSenderDomain, groupSubjectKey := groupSubjectKey,
          aiConfidence := aiConfidence, applicationId := none }
      let updRow : EmailRow → EmailRow := fun e =>
        { e with
          threadId := msg.threadId
          fromEmail := msg.fromEmail
          toEmail := msg.toEmail
          subject := msg.subject
          bodyText := msg.bodyText
          bodyHtml := msg.bodyHtml
          receivedAt := eventAt
          parsedCompanyDomain := senderDomain
          parsedRole := msg.parsedRole
          normalizedRole := normalizeRole roleTitle
          classification := classificationStored
          groupSenderDomain := groupSenderDomain
          groupSubjectKey := groupSubjectKey
          aiConfidence := aiConfidence }
      match upsertEmail st2.emails st2.emailNextId msg.gmailMessageId mkRow updRow with
      | (emails1, emailNext1, emailId) =>
        let eventType := chooseEventType
          { hadExisting := existingGroup.isSome
            existingStatus := existingGroup.map Application.status
            nextStatus := status
            manualStatusLocked :=
              (existingGroup.map Application.manualStatusLocked).getD false }
        match createOrUpdateApplicationFromEmail st2.db
          { companyDomain := companyDomain, roleTitle := roleTitle,
            groupSenderDomain := groupSenderDomain,
            groupSubjectKey := groupSubjectKey, sourceEmailMessageId := emailId,
            status := status, eventType := eventType, eventDetails := "",
            companyName := companyName, eventAt := eventAt } with
        | (db1, application) =>
          let emails2 := linkEmail emails1 emailId application.id
          let aiStatusClean := cleanValue ((aiValue.bind OllamaExtraction.status).getD "unclassified")
          let logs1 := st2.logs ++
            [{ emailMessageId := emailId
               matchedRule :=
                 if aiConfident then
                   "ollama:" ++ (if aiStatusClean ≠ "" then aiStatusClean else "unclassified")
                 else classifier.matchedRule
               predictedStatus := classificationStored
               confidence := if aiConfident then aiConfidence else classifier.confidence }]
          let tasks1 := refreshFollowupForApplication application cfg.followupAfterDays st2.tasks
          { emails := emails2
            emailNextId := emailNext1
            db := db1
            tasks := tasks1
            logs := logs1
            stats :=
              { st2.stats with
                importedEmails := st2.stats.importedEmails + 1
                applicationsCreatedOrUpdated := st2.stats.applicationsCreatedOrUpdated + 1
                statusesUpdated := st2.stats.statusesUpdated +
                  (if eventType = "status_changed" then 1 else 0)
                needsReview := st2.stats.needsReview +
                  (if !aiConfident || classifier.needsReview then 1 else 0) }
            skipAiForRun := st2.skipAiForRun
            ollamaAbortCount := st2.ollamaAbortCount }

/-- One iteration of the per-message loop of runSync, with the message
already parsed and bodyForInference the value computed by
getBodyForInference from the parsed bodies.  The empty message-id check,
the focus re-check, the sender-domain resolution and the noise-domain
denylist guard all come before any state change, exactly as in the
source. -/
def processMessage (cfg : SyncConfig) (ext : ExternalInputs)
    (msg : ParsedMessage) (bodyForInference : String) (st : SyncState) :
    SyncState :=
  if msg.gmailMessageId = "" then st
  else if containsFocus msg.subject bodyForInference cfg.focusTerms = false then st
  else
    let senderDomain := normalizeDomain
      (if msg.parsedCompanyDomain ≠ "" then msg.parsedCompanyDomain
       else extractDomainFromEmail msg.fromEmail)
    if senderDomain = "" then st
    else if senderDomain ∈ NOISE_DOMAINS then st
    else processMessageMain cfg ext msg bodyForInference senderDomain st

/-- C9: a fetched message whose resolved sender domain is empty or on the
noise-domain denylist is dropped before any persistence: the per-message
step leaves the state unchanged (no EmailMessage row, no Application, no
event, no rule log, no follow-up task, no statistics), whatever the focus
phrases, classifier outcome, AI result and identity-resolution results,
and even when the subject or body contains a focus phrase. -/
theorem noise_domain_never_ingested (cfg : SyncConfig) (ext : ExternalInputs)
    (msg : ParsedMessage) (bodyForInference : String) (st : SyncState)
    (h : normalizeDomain (if msg.parsedCompanyDomain ≠ "" then
            msg.parsedCompanyDomain
          else extractDomainFromEmail msg.fromEmail) = "" ∨
        normalizeDomain (if msg.parsedCompanyDomain ≠ "" then
            msg.parsedCompanyDomain
          else extractDomainFromEmail msg.fromEmail) ∈ NOISE_DOMAINS) :
    processMessage cfg ext msg bodyForInference st = st := by
  rcases h with he | hn
  · simp only [ne_eq, ite_not] at he
    simp [processMessage, he]
  · by_cases he2 : normalizeDomain (if msg.parsedCompanyDomain ≠ "" then
        msg.parsedCompanyDomain
      else extractDomainFromEmail msg.fromEmail) = ""
    · simp only [ne_eq, ite_not] at he2
      simp [processMessage, he2]
    · simp only [ne_eq, ite_not] at hn he2
      simp [processMessage, he2, hn]

def sampleCfg : SyncConfig :=
  { focusTerms := ["thanks for applying"], minConfidence := 1, followupAfterDays := 3 }

def sampleExt : ExternalInputs :=
  { aiResult := ⟨false, none, some "Ollama disabled"⟩
    subjectRoleCandidate := ""
    subjectCompanyCandidate := ""
    resolvedCompanyName := ""
    resolvedCompanyDomain := ""
    looksRole := fun _ => false
    looksCompany := fun _ => false }

def noiseMsg : ParsedMessage :=
  { gmailMessageId := "m1"
    threadId := "t1"
    fromEmail := "do-not-reply@gmail.com"
    fromDisplayName := "Gmail Team"
    toEmail := "me@example.com"
    subject := "Security alert"
    bodyText := "thanks for applying to acme"
    bodyHtml := ""
    parsedCompanyDomain := ""
    parsedRole := ""
    internalDate := 1000 }

def emptySyncState : SyncState :=
  { emails := []
    emailNextId := 0
    db := emptyAppDb
    tasks := emptyTaskStore
    logs := []
    stats := ⟨0, 0, 0, 0, 0, 0, 0, 0⟩
    skipAiForRun := false
    ollamaAbortCount := 0 }

/-- Witness for C9: a message from gmail.com whose body contains the
focus phrase is still dropped with no state change. -/
theorem noise_domain_never_ingested_witness :
    normalizeDomain (if noiseMsg.parsedCompanyDomain ≠ "" then
        noiseMsg.parsedCompanyDomain
      else extractDomainFromEmail noiseMsg.fromEmail) ∈ NOISE_DOMAINS ∧
    containsFocus noiseMsg.subject "thanks for applying to acme"
      sampleCfg.focusTerms = true ∧
    processMessage sampleCfg sampleExt noiseMsg "thanks for applying to acme"
      emptySyncState = emptySyncState :=
  ⟨by decide, by decide,
    noise_domain_never_ingested sampleCfg sampleExt noiseMsg
      "thanks for applying to acme" emptySyncState (Or.inr (by decide))⟩

end CVManager
